import Mathlib

/-
Verification development for the html5tagger library: a shallow embedding of
the Builder (builder.py), the string/attribute helpers (util.py), the static
HTML5 tag tables (html5.py) and the tree reconstructor (parser.py), together
with theorems settling the specified properties.

Modelling conventions:
* Python strings are Lean `String`s; the helper functions below work on
  `String.data` (lists of characters) so that every definition evaluates by
  kernel reduction.
* Python's mutable Builder objects become a pure inductive value.  A template
  slot (`_templates[name]`) is stored in an association list keyed by name,
  preserving insertion order exactly as a Python dict does; a piece that in
  Python holds a reference to a template Builder object is represented by the
  constructor `Frag.tpl name`, resolved through the association list at
  render time.  This by-name indirection coincides with Python object
  identity whenever slot references are created through the template
  accessor (`doc.Name_`), which is the library's own pathway.
* Fallible operations (Python assert / KeyError / IndexError / ValueError)
  return `Except String _`; the exact message text is not part of any claim.
* Python's `str.isalnum` and the regex class `\w` are modelled on ASCII
  characters (`Char.isAlphanum`), which covers every string the claims
  mention.
-/

namespace Tagger

/-! ## util.py: escaping, attribute rendering, identifier mangling -/

/-- One character of `escape` (util.py): `&` to `&amp;` then `<` to `&lt;`.
The sequential `str.replace` calls of the source are equivalent to this
character map because the first replacement introduces no `<` and the second
is applied after the `&` pass. -/
def escChar (c : Char) : List Char :=
  if c = '&' then ['&', 'a', 'm', 'p', ';']
  else if c = '<' then ['&', 'l', 't', ';']
  else [c]

def escapeCore : List Char → List Char
  | [] => []
  | c :: cs => escChar c ++ escapeCore cs

/-- `escape` of util.py. -/
def escape (s : String) : String := ⟨escapeCore s.data⟩

/-- One character of the attribute-value quoting of `attributes` (util.py):
`v.replace("&", "&amp;").replace('"', "&quot;")`. -/
def escAttrChar (c : Char) : List Char :=
  if c = '&' then ['&', 'a', 'm', 'p', ';']
  else if c = '"' then ['&', 'q', 'u', 'o', 't', ';']
  else [c]

def escAttrCore : List Char → List Char
  | [] => []
  | c :: cs => escAttrChar c ++ escAttrCore cs

/-- The double-quoted form `'"' + v.replace(...) + '"'` used by `attributes`. -/
def quoteAttr (s : String) : String := ⟨'"' :: (escAttrCore s.data ++ ['"'])⟩

/-- Python `str.isalnum`: nonempty and every character alphanumeric. -/
def pyIsAlnum (s : String) : Bool := !s.data.isEmpty && s.data.all Char.isAlphanum

/-- Python `str.rstrip("_")`: remove every trailing underscore. -/
def rstripU (cs : List Char) : List Char :=
  (cs.reverse.dropWhile (fun c => c = '_')).reverse

def hyphenate (c : Char) : Char := if c = '_' then '-' else c

/-- `mangle` of util.py: `name.rstrip("_").replace("_", "-")`. -/
def mangle (name : String) : String := ⟨(rstripU name.data).map hyphenate⟩

/-- The value universe of an attribute dict as the source discriminates it:
`None`, `False`, `True`, or any other value after `str()` conversion. -/
inductive AttrValue where
  | vNone
  | vFalse
  | vTrue
  | vStr (s : String)
deriving DecidableEq

/-- `attributes` of util.py.  The source accumulates into `ret` with a loop;
this recursion produces the identical concatenation. -/
def attributes : List (String × AttrValue) → String
  | [] => ""
  | (k, v) :: rest =>
    match v with
    | .vNone => attributes rest
    | .vFalse => attributes rest
    | .vTrue => " " ++ mangle k ++ attributes rest
    | .vStr s =>
      " " ++ mangle k ++ "=" ++ (if pyIsAlnum s then s else quoteAttr s) ++ attributes rest

/-- Python `str.replace` (left-to-right, non-overlapping); used by
`Builder._comment` with the pattern `-->`.  The fuel argument is for
structural termination only: every step consumes at least one character, so
an initial fuel of the input's length never runs out. -/
def replaceFuel (pat rep : List Char) : Nat → List Char → List Char
  | _, [] => []
  | 0, l => l
  | fuel + 1, c :: rest =>
    if pat ≠ [] ∧ pat.isPrefixOf (c :: rest) then
      rep ++ replaceFuel pat rep fuel ((c :: rest).drop pat.length)
    else
      c :: replaceFuel pat rep fuel rest

def replaceCore (pat rep s : List Char) : List Char := replaceFuel pat rep s.length s

/-- Case-insensitive match of a lowercase pattern against a prefix. -/
def ciMatch : List Char → List Char → Bool
  | [], _ => true
  | _ :: _, [] => false
  | p :: ps, c :: cs => (c.toLower = p) && ciMatch ps cs

/-- `escape_special` of util.py with pattern `</(tag)` (case-insensitive):
each occurrence of `</` followed by `pat` (any case) becomes `<\/` followed by
the original matched text, exactly as `re.sub(r'<\\/\1', ...)` does. -/
def escSpecialFuel (pat : List Char) : Nat → List Char → List Char
  | _, [] => []
  | 0, l => l
  | fuel + 1, c :: rest =>
    if ciMatch ('<' :: '/' :: pat) (c :: rest) then
      '<' :: '\\' :: '/' :: (((c :: rest).drop 2).take pat.length
        ++ escSpecialFuel pat fuel ((c :: rest).drop (2 + pat.length)))
    else
      c :: escSpecialFuel pat fuel rest

def escSpecialCore (pat s : List Char) : List Char := escSpecialFuel pat s.length s

/-! ## html5.py: the static tag tables -/

def voidElems : List String :=
  ["area", "base", "br", "col", "embed", "hr", "img", "input", "keygen",
   "link", "menuitem", "meta", "param", "source", "track", "wbr"]

def optionalElems : List String :=
  ["html", "head", "body", "p", "colgroup", "thead", "tbody", "tfoot", "tr",
   "th", "td", "li", "dt", "dd", "optgroup", "option"]

/-- `omit_endtag = void | optional` of html5.py. -/
def omitEndtag : List String := voidElems ++ optionalElems

/-! ## builder.py: the Builder -/

/-- One entry of `Builder._pieces`: a literal markup string, or a reference to
a template Builder (stored by the slot's name, see the header comment). -/
inductive Frag where
  | str (s : String)
  | tpl (name : String)
deriving DecidableEq

/-- `Builder`: name, `_pieces`, `_templates` (insertion-ordered dict),
`_endtag` (pending end tag or empty), `_stack` (Python-ordered: the last
element is the most recently pushed scope closer). -/
inductive Builder where
  | mk (name : String) (pieces : List Frag) (templates : List (String × Builder))
       (endtag : String) (stack : List String)

def Builder.name : Builder → String
  | .mk n _ _ _ _ => n

def Builder.pieces : Builder → List Frag
  | .mk _ p _ _ _ => p

def Builder.templates : Builder → List (String × Builder)
  | .mk _ _ t _ _ => t

def Builder.endtag : Builder → String
  | .mk _ _ _ e _ => e

def Builder.stack : Builder → List String
  | .mk _ _ _ _ s => s

/-- Python dict lookup on an insertion-ordered association list. -/
def alistLookup {β : Type} : List (String × β) → String → Option β
  | [], _ => none
  | (k2, v) :: rest, k => if k2 = k then some v else alistLookup rest k

/-- Python dict item assignment: replace in place if the key exists,
otherwise append. -/
def alistInsert {β : Type} : List (String × β) → String → β → List (String × β)
  | [], k, v => [(k, v)]
  | (k2, v2) :: rest, k, v =>
    if k2 = k then (k, v) :: rest else (k2, v2) :: alistInsert rest k v

/-- Python `dict.update`. -/
def alistUpdateAll {β : Type} (ts updates : List (String × β)) : List (String × β) :=
  updates.foldl (fun acc kv => alistInsert acc kv.1 kv.2) ts

def lookupTemplate (ts : List (String × Builder)) (k : String) : Option Builder :=
  alistLookup ts k

/-- `Builder._allpieces`: pieces, then the pending end tag (always present,
possibly the empty string), then the stack reversed (most recent first). -/
def allpieces (b : Builder) : List Frag :=
  b.pieces ++ [.str b.endtag] ++ (b.stack.reverse.map Frag.str)

mutual

/-- A computable structural size for Builders, used as recursion fuel for
the (finitely deep) template indirection. -/
def bsize : Builder → Nat
  | .mk _ _ ts _ _ => 1 + tsize ts

def tsize : List (String × Builder) → Nat
  | [] => 0
  | (_, b) :: rest => bsize b + tsize rest

end

def joinAll : List String → String
  | [] => ""
  | s :: rest => s ++ joinAll rest

/-- `Builder.__str__` with a structural fuel for the recursion through
template references; each hop reaches a structurally smaller Builder, so an
initial fuel of `bsize b` never runs out (`renderFuelB_congr` below). -/
def renderFuelB : Nat → Builder → String
  | 0, _ => ""
  | fuel + 1, b =>
    joinAll ((allpieces b).map (fun f =>
      match f with
      | .str s => s
      | .tpl nm =>
        match lookupTemplate b.templates nm with
        | some tb => renderFuelB fuel tb
        | none => ""))

/-- `str(builder)`: join all pieces, rendering template references through
the template environment. -/
def renderB (b : Builder) : String := renderFuelB (bsize b) b

/-- The rendering of a single piece of `b` (`str(frag)` in `__str__`). -/
def fragRender (b : Builder) : Frag → String
  | .str s => s
  | .tpl nm =>
    match lookupTemplate b.templates nm with
    | some tb => renderB tb
    | none => ""

/-- `Builder._clear`. -/
def clearB : Builder → Builder
  | .mk n _ _ _ _ => .mk n [] [] "" []

/-- `Builder._endtag_close`. -/
def endtagClose : Builder → Builder
  | .mk n p t e s => if e = "" then .mk n p t e s else .mk n (p ++ [.str e]) t "" s

/-- The tag branch of `Builder.__getattr__`: mangle the name, close any
pending end tag, append the opening tag, and set the pending end tag unless
the tag is in the omit set. -/
def openTag (b : Builder) (nm : String) : Builder :=
  let tagname := mangle nm
  match endtagClose b with
  | .mk n p t e s =>
    if omitEndtag.contains tagname then
      .mk n (p ++ [.str ("<" ++ tagname ++ ">")]) t e s
    else
      .mk n (p ++ [.str ("<" ++ tagname ++ ">")]) t ("</" ++ tagname ++ ">") s

/-- `Builder.__enter__`: requires a pending end tag, pushes it. -/
def enterB : Builder → Except String Builder
  | .mk n p t e s =>
    if e = "" then .error "With statement may only be used with non-void elements."
    else .ok (.mk n p t "" (s ++ [e]))

/-- `Builder.__exit__`: close the pending end tag, then pop the stack. -/
def exitB (b : Builder) : Except String Builder :=
  match endtagClose b with
  | .mk n p t e s =>
    match s.getLast? with
    | none => .error "IndexError: pop from empty list"
    | some top => .ok (.mk n (p ++ [.str top]) t e s.dropLast)

/-- `Builder._comment`: append a comment piece, defusing any `-->` inside. -/
def commentB (b : Builder) (text : String) : Builder :=
  match b with
  | .mk n p t e s =>
    .mk n (p ++ [.str ("<!--" ++ (⟨replaceCore "-->".data "‒‒>".data text.data⟩ : String) ++ "-->")]) t e s

/-- `Builder._script`. -/
def scriptB (b : Builder) (code : String) (attrs : List (String × AttrValue)) : Builder :=
  match endtagClose b with
  | .mk n p t e s =>
    .mk n (p ++ [.str ("<script" ++ attributes attrs ++ ">"
      ++ (⟨escSpecialCore "script>".data code.data⟩ : String) ++ "</script>")]) t e s

/-- `Builder._style`. -/
def styleB (b : Builder) (code : String) (attrs : List (String × AttrValue)) : Builder :=
  match endtagClose b with
  | .mk n p t e s =>
    .mk n (p ++ [.str ("<style" ++ attributes attrs ++ ">"
      ++ (⟨escSpecialCore "style>".data code.data⟩ : String) ++ "</style>")]) t e s

/-- A content argument to `Builder._` / `Builder.__call__`: `None`, a plain
value (escaped), an object with `__html__` (inserted raw), or a Builder. -/
inductive Content where
  | cNone
  | cText (s : String)
  | cHtml (s : String)
  | cBuilder (b : Builder)

/-- One iteration of `Builder._`.  The identity assert (`c is not self`) has
no counterpart for pure values and is omitted; no claim concerns it. -/
def appendContent (b : Builder) : Content → Builder
  | .cNone => b
  | .cText s =>
    (match b with | .mk n p t e st => .mk n (p ++ [.str (escape s)]) t e st)
  | .cHtml s =>
    (match b with | .mk n p t e st => .mk n (p ++ [.str s]) t e st)
  | .cBuilder c =>
    match b with
    | .mk n p t e st =>
      if (lookupTemplate t c.name).isSome then
        .mk n (p ++ [.tpl c.name]) t e st
      else
        .mk n (p ++ c.pieces) (alistUpdateAll t c.templates) e st

/-- `Builder._`: append content items without closing the current tag. -/
def underscoreB (b : Builder) : List Content → Builder
  | [] => b
  | c :: rest => underscoreB (appendContent b c) rest

/-- The syntactic check of `Builder.__call__` on the most recent piece:
`tag[0] == "<" and tag[-1] == ">" and not tag.startswith("</")`. -/
def openCheck (s : String) : Bool :=
  match s.data with
  | [] => false
  | '<' :: '/' :: _ => false
  | '<' :: rest => rest.getLast? = some '>'
  | _ => false

/-- `f"{tag[:-1]}{attributes(_attrs)}>"`. -/
def mergeTag (tag : String) (attrs : List (String × AttrValue)) : String :=
  (⟨tag.data.dropLast⟩ : String) ++ attributes attrs ++ ">"

def Builder.setPieces : Builder → List Frag → Builder
  | .mk n _ t e s, p => .mk n p t e s

def Builder.setTemplates : Builder → List (String × Builder) → Builder
  | .mk n p _ e s, t => .mk n p t e s

/-- `Builder.__call__`: if the last piece is a template reference, attributes
are an error and content goes into the template; otherwise attributes are
merged into the last piece (which must pass `openCheck`) and content is
appended followed by `_endtag_close`.  The fuel bounds the recursion through
templates; `bsize b` always suffices because each hop reaches a
structurally smaller Builder. -/
def callFuel : Nat → Builder → List Content → List (String × AttrValue) →
    Except String Builder
  | fuel, b, content, attrs =>
    match b.pieces.getLast? with
    | some (.tpl nm) =>
      if attrs ≠ [] then .error "Cannot add attributes to a template placeholder"
      else
        match lookupTemplate b.templates nm with
        | some tb =>
          match fuel with
          | 0 => .error "recursion depth exceeded"
          | fuel2 + 1 =>
            match callFuel fuel2 tb content [] with
            | .ok tb2 => .ok (b.setTemplates (alistInsert b.templates nm tb2))
            | .error e => .error e
        | none => .error "unresolved template reference"
    | some (.str tag) =>
      match (if attrs = [] then .ok b
             else if openCheck tag then
               .ok (b.setPieces (b.pieces.dropLast ++ [.str (mergeTag tag attrs)]))
             else .error "Can only add attrs to opening tags" : Except String Builder) with
      | .error e => .error e
      | .ok b2 =>
        if content.isEmpty then .ok b2 else .ok (endtagClose (underscoreB b2 content))
    | none =>
      if attrs ≠ [] then .error "IndexError: list index out of range"
      else if content.isEmpty then .ok b else .ok (endtagClose (underscoreB b content))

def callB (b : Builder) (content : List Content) (attrs : List (String × AttrValue)) :
    Except String Builder :=
  callFuel (bsize b) b content attrs

/-- The template-insert branch of `Builder.__getattr__` (uppercase name with
trailing underscore, e.g. `doc.Slot_`): look up or create the slot's Builder
and append it to the pieces by reference. -/
def tplInsertB (b : Builder) (nm : String) : Builder :=
  match b with
  | .mk n p t e s =>
    match lookupTemplate t nm with
    | some _ => .mk n (p ++ [.tpl nm]) t e s
    | none => .mk n (p ++ [.tpl nm]) (t ++ [(nm, .mk nm [] [] "" [])]) e s

/-- `Builder.__setattr__` on an uppercase name: clear the existing template
Builder in place and refill it with the new value. -/
def tplAssignB (b : Builder) (nm : String) (v : Content) : Except String Builder :=
  match lookupTemplate b.templates nm with
  | none => .error "KeyError"
  | some tb =>
    match callB (clearB tb) [v] [] with
    | .ok tb2 => .ok (b.setTemplates (alistInsert b.templates nm tb2))
    | .error e => .error e

/-- The Builder operations a caller can perform, as claimed sequences use
them.  `tag` is attribute access with a lowercase name, `call` is
`__call__`, `usc` is `._(...)`, `tplInsert`/`tplAssign` are the uppercase
template accessor and assignment. -/
inductive Op where
  | tag (name : String)
  | call (content : List Content) (attrs : List (String × AttrValue))
  | usc (content : List Content)
  | enterScope
  | exitScope
  | comment (text : String)
  | script (code : String) (attrs : List (String × AttrValue))
  | style (code : String) (attrs : List (String × AttrValue))
  | tplInsert (name : String)
  | tplAssign (name : String) (value : Content)

def exec : Op → Builder → Except String Builder
  | .tag nm, b => .ok (openTag b nm)
  | .call cs as, b => callB b cs as
  | .usc cs, b => .ok (underscoreB b cs)
  | .enterScope, b => enterB b
  | .exitScope, b => exitB b
  | .comment t, b => .ok (commentB b t)
  | .script c as, b => .ok (scriptB b c as)
  | .style c as, b => .ok (styleB b c as)
  | .tplInsert nm, b => .ok (tplInsertB b nm)
  | .tplAssign nm v, b => tplAssignB b nm v

def execs : List Op → Builder → Except String Builder
  | [], b => .ok b
  | op :: rest, b =>
    match exec op b with
    | .ok b2 => execs rest b2
    | .error e => .error e

/-- A fresh Builder, `Builder(name)`. -/
def emptyB (nm : String) : Builder := .mk nm [] [] "" []

/-! ## parser.py: content-model tables -/

def BASIC_INLINE : List String :=
  ["a", "abbr", "area", "b", "bdi", "bdo", "br", "button", "cite",
   "code", "data", "datalist", "del", "dfn", "em", "i", "input",
   "ins", "kbd", "label", "map", "mark", "meter", "noscript",
   "output", "q", "ruby", "s", "samp", "select", "slot", "small",
   "span", "strong", "sub", "sup", "u", "var", "wbr"]

def MEDIA_ELEMENTS : List String :=
  ["audio", "canvas", "embed", "iframe", "img", "object",
   "picture", "svg", "video"]

def FORM_ELEMENTS : List String := ["fieldset", "form", "option", "textarea"]

def SCRIPT_SUPPORTING_ELEMENTS : List String := ["script", "template"]

def HEADING_ELEMENTS : List String := ["h1", "h2", "h3", "h4", "h5", "h6"]

def PHRASING_CONTENT : List String :=
  BASIC_INLINE ++ MEDIA_ELEMENTS ++ ["time", "template"]

def HEADING_CONTENT : List String := PHRASING_CONTENT ++ HEADING_ELEMENTS

def SECTIONING_CONTENT : List String := ["article", "aside", "nav", "section"]

def FLOW_CONTENT : List String :=
  BASIC_INLINE ++ MEDIA_ELEMENTS ++ FORM_ELEMENTS ++
  ["address", "article", "aside", "blockquote", "caption",
   "details", "dialog", "div", "dl", "dt", "fieldset", "figure",
   "footer", "h1", "h2", "h3", "h4", "h5", "h6", "header",
   "hgroup", "hr", "main", "math", "menu", "nav", "ol", "p",
   "pre", "progress", "section", "table", "template", "time", "ul"]

def ROOT_CONTENT : List String := ["html", "body"]

def TEXT_ALLOWED_ELEMENTS : List String :=
  ["a", "abbr", "address", "article", "aside", "b",
   "bdi", "bdo", "blockquote", "button", "caption",
   "cite", "code", "data", "datalist", "dd", "del",
   "details", "dfn", "div", "dl", "dt", "em", "fieldset",
   "figcaption", "figure", "footer", "form", "h1", "h2",
   "h3", "h4", "h5", "h6", "header", "hgroup", "i",
   "ins", "kbd", "label", "legend", "li", "main", "mark",
   "menu", "meter", "nav", "noscript", "ol", "option",
   "output", "p", "pre", "progress", "q", "rb", "rp",
   "rt", "rtc", "ruby", "s", "samp", "section", "select",
   "small", "span", "strong", "sub", "summary", "sup",
   "table", "tbody", "td", "textarea", "tfoot", "th",
   "thead", "time", "tr", "u", "ul", "var"]

/-- Set difference on the membership semantics of the Python set algebra. -/
def setDiff (a b : List String) : List String := a.filter (fun x => !b.contains x)

/-- `ALLOWED_CONTENT_MODEL` of parser.py, entry by entry in source order (the
duplicate `br` key of the source is kept; lookup returns the first).  `none`
is a `None` entry (no children permitted); a list is the permitted set. -/
def ALLOWED_CONTENT_MODEL : List (String × Option (List String)) :=
  [("abbr", some PHRASING_CONTENT),
   ("address", some (setDiff (setDiff (setDiff FLOW_CONTENT HEADING_CONTENT) SECTIONING_CONTENT) ["address", "header", "footer"])),
   ("area", none),
   ("article", some FLOW_CONTENT),
   ("aside", some FLOW_CONTENT),
   ("b", some PHRASING_CONTENT),
   ("bdi", some PHRASING_CONTENT),
   ("bdo", some PHRASING_CONTENT),
   ("blockquote", some FLOW_CONTENT),
   ("body", some FLOW_CONTENT),
   ("br", none),
   ("br", none),
   ("button", some PHRASING_CONTENT),
   ("canvas", none),
   ("caption", some (setDiff FLOW_CONTENT ["table"])),
   ("cite", some PHRASING_CONTENT),
   ("code", some PHRASING_CONTENT),
   ("col", none),
   ("colgroup", some ["col", "template"]),
   ("data", some PHRASING_CONTENT),
   ("datalist", some (["option"] ++ SCRIPT_SUPPORTING_ELEMENTS ++ PHRASING_CONTENT)),
   ("dd", some FLOW_CONTENT),
   ("details", some (setDiff FLOW_CONTENT ["summary"])),
   ("dfn", some (setDiff PHRASING_CONTENT ["dfn"])),
   ("dialog", some FLOW_CONTENT),
   ("div", some (FLOW_CONTENT ++ SCRIPT_SUPPORTING_ELEMENTS ++ ["dt", "dd"])),
   ("dl", some (["dt", "dd", "div"] ++ SCRIPT_SUPPORTING_ELEMENTS)),
   ("dt", some (setDiff (setDiff (setDiff FLOW_CONTENT ["header", "footer"]) SECTIONING_CONTENT) HEADING_CONTENT)),
   ("em", some PHRASING_CONTENT),
   ("embed", none),
   ("fieldset", some (["legend"] ++ FLOW_CONTENT)),
   ("figcaption", some FLOW_CONTENT),
   ("figure", some (["figcaption"] ++ FLOW_CONTENT)),
   ("footer", some (setDiff FLOW_CONTENT ["header", "footer"])),
   ("form", some (setDiff FLOW_CONTENT ["form"])),
   ("h1", some PHRASING_CONTENT),
   ("h2", some PHRASING_CONTENT),
   ("h3", some PHRASING_CONTENT),
   ("h4", some PHRASING_CONTENT),
   ("h5", some PHRASING_CONTENT),
   ("h6", some PHRASING_CONTENT),
   ("header", some (setDiff FLOW_CONTENT ["header", "footer"])),
   ("hgroup", some (HEADING_ELEMENTS ++ ["p"])),
   ("hr", none),
   ("i", some PHRASING_CONTENT),
   ("iframe", none),
   ("img", none),
   ("input", none),
   ("kbd", some PHRASING_CONTENT),
   ("label", some (setDiff PHRASING_CONTENT ["label"])),
   ("legend", some (PHRASING_CONTENT ++ HEADING_CONTENT)),
   ("li", some FLOW_CONTENT),
   ("link", none),
   ("main", some FLOW_CONTENT),
   ("mark", some PHRASING_CONTENT),
   ("menu", some (["li"] ++ SCRIPT_SUPPORTING_ELEMENTS)),
   ("meta", none),
   ("meter", some (setDiff PHRASING_CONTENT ["meter"])),
   ("nav", some FLOW_CONTENT),
   ("ol", some (["li"] ++ SCRIPT_SUPPORTING_ELEMENTS)),
   ("optgroup", some (["option"] ++ SCRIPT_SUPPORTING_ELEMENTS)),
   ("option", none),
   ("output", some PHRASING_CONTENT),
   ("p", some PHRASING_CONTENT),
   ("picture", some ["source", "img"]),
   ("pre", some PHRASING_CONTENT),
   ("progress", some (setDiff PHRASING_CONTENT ["progress"])),
   ("q", some PHRASING_CONTENT),
   ("rp", none),
   ("rt", some PHRASING_CONTENT),
   ("ruby", some (PHRASING_CONTENT ++ ["rt", "rp"])),
   ("s", some PHRASING_CONTENT),
   ("samp", some PHRASING_CONTENT),
   ("script", none),
   ("search", some FLOW_CONTENT),
   ("section", some FLOW_CONTENT),
   ("select", some ["option", "optgroup", "hr"]),
   ("small", some PHRASING_CONTENT),
   ("source", none),
   ("span", some PHRASING_CONTENT),
   ("strong", some PHRASING_CONTENT),
   ("style", none),
   ("sub", some PHRASING_CONTENT),
   ("summary", some (PHRASING_CONTENT ++ HEADING_CONTENT)),
   ("sup", some PHRASING_CONTENT),
   ("table", some (["tbody", "thead", "tfoot", "tr", "caption", "colgroup"] ++ SCRIPT_SUPPORTING_ELEMENTS)),
   ("tbody", some ["tr"]),
   ("td", some FLOW_CONTENT),
   ("textarea", none),
   ("tfoot", some ["tr"]),
   ("th", some (setDiff (setDiff (setDiff FLOW_CONTENT ["header", "footer"]) SECTIONING_CONTENT) HEADING_CONTENT)),
   ("thead", some ["tr"]),
   ("time", some PHRASING_CONTENT),
   ("title", none),
   ("tr", some ["th", "td"]),
   ("track", none),
   ("u", some PHRASING_CONTENT),
   ("ul", some (["li"] ++ SCRIPT_SUPPORTING_ELEMENTS)),
   ("var", some PHRASING_CONTENT),
   ("wbr", none)]

/-! ## parser.py: piece classification (`_parse_tag` and its regex) -/

/-- The regex class `\w` on ASCII. -/
def isWordChar (c : Char) : Bool := c.isAlphanum || c = '_'

/-- The regex class `[\w-]`. -/
def isNameChar (c : Char) : Bool := isWordChar c || c = '-'

/-- One match of `PARSE_TAG_PATTERN = <(/?)(\w+)|([\w-]+)=('[^']*'|"[^"]*"|\w+)`. -/
inductive TagMatch where
  | tagM (isEnd : Bool) (name : String)
  | attrM (name : String) (value : String)
deriving DecidableEq

/-- Try the first alternative `<(/?)(\w+)` at this position; on success
return the payload and the number of characters consumed.  (Backtracking on
`/?` never helps because `/` is not a word character.) -/
def matchAlt1 (s : List Char) : Option (Bool × String × Nat) :=
  match s with
  | [] => none
  | c :: rest =>
    if c = '<' then
      match rest with
      | [] => none
      | c2 :: r2 =>
        if c2 = '/' then
          let nm := r2.takeWhile isWordChar
          if nm.isEmpty then none else some (true, ⟨nm⟩, 2 + nm.length)
        else
          let nm := rest.takeWhile isWordChar
          if nm.isEmpty then none else some (false, ⟨nm⟩, 1 + nm.length)
    else none

def quoteS : Char := Char.ofNat 39

/-- The value alternative `('[^']*'|"[^"]*"|\w+)`; quotes are part of the
captured group, exactly as in the source pattern. -/
def matchValue (s : List Char) : Option (String × Nat) :=
  match s with
  | [] => none
  | c :: rest =>
    if c = quoteS then
      let body := rest.takeWhile (fun d => d ≠ quoteS)
      match rest.drop body.length with
      | d :: _ => if d = quoteS then some (⟨c :: (body ++ [d])⟩, body.length + 2) else none
      | [] => none
    else if c = '"' then
      let body := rest.takeWhile (fun d => d ≠ '"')
      match rest.drop body.length with
      | d :: _ => if d = '"' then some (⟨c :: (body ++ [d])⟩, body.length + 2) else none
      | [] => none
    else
      let run := (c :: rest).takeWhile isWordChar
      if run.isEmpty then none else some (⟨run⟩, run.length)

/-- Try the second alternative `([\w-]+)=(...)`.  The greedy `[\w-]+` needs
no backtracking because `=` is not a name character. -/
def matchAlt2 (s : List Char) : Option (String × String × Nat) :=
  let nm := s.takeWhile isNameChar
  if nm.isEmpty then none
  else
    match s.drop nm.length with
    | '=' :: r =>
      match matchValue r with
      | some (v, k) => some (⟨nm⟩, v, nm.length + 1 + k)
      | none => none
    | _ => none

/-- `re.finditer` over the piece: leftmost, non-overlapping matches,
preferring the first alternative at each position.  The fuel is for
structural termination only: each step consumes at least one character
(both alternatives consume a nonempty match). -/
def scanFuel : Nat → List Char → List TagMatch
  | _, [] => []
  | 0, _ => []
  | fuel + 1, c :: rest =>
    match matchAlt1 (c :: rest) with
    | some (e, n, k) => .tagM e n :: scanFuel fuel ((c :: rest).drop k)
    | none =>
      match matchAlt2 (c :: rest) with
      | some (n, v, k) => .attrM n v :: scanFuel fuel ((c :: rest).drop k)
      | none => scanFuel fuel rest

def scanMatches (s : List Char) : List TagMatch := scanFuel s.length s

def ROOT_KEY : String := "__root__"
def DOCTYPE_KEY : String := "__doctype__"
def COMMENT_KEY : String := "__comment__"
def TEXT_KEY : String := "__text__"
def DOCTYPE : String := "<!DOCTYPE html>"

/-- `piece.startswith("<!")`. -/
def startsWithBang (s : String) : Bool :=
  match s.data with
  | '<' :: '!' :: _ => true
  | _ => false

/-- The result of `NodeCreator._parse_tag`: the Python `tag_name` may be
`None` (first match is an attribute), and the attribute dict uses the match
groups 3 and 4, which are `None` for a tag-shaped later match. -/
structure ParsedTag where
  tagName : Option String
  isClosing : Bool
  attrs : List (Option String × Option String)
deriving DecidableEq

/-- `NodeCreator._parse_tag`. -/
def parseTag (piece : String) : ParsedTag :=
  if startsWithBang piece then ⟨some COMMENT_KEY, false, []⟩
  else
    match scanMatches piece.data with
    | [] => ⟨some TEXT_KEY, false, []⟩
    | m :: rest =>
      let head : Option String × Bool :=
        match m with
        | .tagM e n => (some n, e)
        | .attrM _ _ => (none, false)
      ⟨head.1, head.2,
        rest.map (fun mm =>
          match mm with
          | .tagM _ _ => (none, none)
          | .attrM k v => (some k, some v))⟩

/-- Generic dict construction from pairs (`{m.group(3): m.group(4) ...}`):
later assignments to the same key overwrite in place. -/
def alistInsertO (l : List (Option String × Option String))
    (k : Option String) (v : Option String) : List (Option String × Option String) :=
  match l with
  | [] => [(k, v)]
  | (k2, v2) :: rest =>
    if k2 = k then (k, v) :: rest else (k2, v2) :: alistInsertO rest k v

def dictOfPairs (l : List (Option String × Option String)) :
    List (Option String × Option String) :=
  l.foldl (fun acc kv => alistInsertO acc kv.1 kv.2) []

/-! ## parser.py: nodes and the tree -/

inductive NodeKind where
  | root
  | doctype
  | commentK
  | element
deriving DecidableEq

/-- `HTMLNode` (and its `RootNode` / `DoctypeNode` / `CommentNode`
subclasses, distinguished by `kind`): name, attribute dict, accumulated text
content, children in document order, and the end-tag flag.  The mutable
`_closed` flag and `_parent` pointer of the source have no counterpart: the
reconstruction below keeps open nodes on an explicit stack (a node is open
exactly while it sits there), and attaches each completed node to the node
beneath it, which reproduces the mutation order of the source (children are
attached to a stack node only while it is topmost). -/
inductive HTMLNode where
  | mk (kind : NodeKind) (name : Option String)
       (attrs : List (Option String × Option String))
       (content : String) (children : List HTMLNode) (endtag : Bool)

def HTMLNode.kindOf : HTMLNode → NodeKind
  | .mk k _ _ _ _ _ => k

def HTMLNode.nameOf : HTMLNode → Option String
  | .mk _ n _ _ _ _ => n

def HTMLNode.attrsOf : HTMLNode → List (Option String × Option String)
  | .mk _ _ a _ _ _ => a

def HTMLNode.contentOf : HTMLNode → String
  | .mk _ _ _ c _ _ => c

def HTMLNode.childrenOf : HTMLNode → List HTMLNode
  | .mk _ _ _ _ ch _ => ch

def HTMLNode.endtagOf : HTMLNode → Bool
  | .mk _ _ _ _ _ e => e

/-- `HTMLNode.__init__(name, attributes)`: the end tag is expected unless the
name is in the omit set (Python `None not in omit_endtag` is true). -/
def newElementNode (nm : Option String)
    (attrs : List (Option String × Option String)) : HTMLNode :=
  .mk .element nm attrs "" []
    (match nm with
     | some s => !omitEndtag.contains s
     | none => true)

def rootNode : HTMLNode := .mk .root (some ROOT_KEY) [] "" [] false

def doctypeNode : HTMLNode := .mk .doctype (some DOCTYPE_KEY) [] "" [] false

def commentNode (text : String) : HTMLNode :=
  .mk .commentK (some COMMENT_KEY) [] text [] false

def addChildN (parent child : HTMLNode) : HTMLNode :=
  match parent with
  | .mk k n a c ch e => .mk k n a c (ch ++ [child]) e

def addContentN (parent : HTMLNode) (txt : String) : HTMLNode :=
  match parent with
  | .mk k n a c ch e => .mk k n a (c ++ txt) ch e

/-- `HTMLNode.can_contain` / `RootNode.can_contain` as a function of the
node's kind and name: an absent table entry imposes no restriction, a `None`
or empty entry permits nothing, otherwise the child name must be a member
(a `None` child name is a member of nothing). -/
def canContainKN (k : NodeKind) (pname : Option String) (child : Option String) : Bool :=
  match k with
  | .root => true
  | _ =>
    match pname with
    | none => true
    | some nm =>
      match alistLookup ALLOWED_CONTENT_MODEL nm with
      | none => true
      | some none => false
      | some (some l) =>
        if l.isEmpty then false
        else match child with
          | some c => l.contains c
          | none => false

def canContainN (parent : HTMLNode) (child : Option String) : Bool :=
  canContainKN parent.kindOf parent.nameOf child

/-- `HTMLNode.is_allowed_text_content`. -/
def isAllowedTextN (nd : HTMLNode) : Bool :=
  match nd.nameOf with
  | some s => TEXT_ALLOWED_ELEMENTS.contains s
  | none => false

/-! ## parser.py: NodeCreator -/

/-- The reconstruction state: the stack of currently open nodes (head =
innermost, matching `reversed(stack)` iteration of the source; the source
list grows at the tail) and, once the bottom root node has been closed and
popped, the completed root tree (in the source, the `root` local variable
keeps that object alive even after an unmatched closing tag pops it). -/
structure PState where
  stack : List HTMLNode
  rootResult : Option HTMLNode

def initState : PState := ⟨[rootNode], none⟩

/-- Closing the bottom node of the stack (`NodeCreator._close_node` when
nothing is beneath it): the root node is recorded as the result (in the
source the `root` local keeps that object); a dangling node created after
the root was popped is unreachable from the result and is discarded. -/
def closeBottom (f : HTMLNode) (rr : Option HTMLNode) : Option HTMLNode :=
  match f.kindOf with
  | .root => some f
  | _ => rr

/-- `NodeCreator._handle_doctype`. -/
def handleDoctype (st : PState) : Except String PState :=
  if 1 < st.stack.length then .error "Doctype must be the first element"
  else
    match st.stack with
    | [] => .error "IndexError: list index out of range"
    | f :: rest => .ok ⟨addChildN f doctypeNode :: rest, st.rootResult⟩

/-- `NodeCreator._handle_comment`: the first non-closed node from the top is
the top itself (stack nodes are open); an empty stack attaches nowhere. -/
def handleComment (text : String) (st : PState) : PState :=
  match st.stack with
  | [] => st
  | f :: rest => ⟨addChildN f (commentNode text) :: rest, st.rootResult⟩

/-- `NodeCreator._handle_text`: walk outward for the first node whose
category allows text; if none does, the text is dropped. -/
def attachText (txt : String) : List HTMLNode → List HTMLNode
  | [] => []
  | f :: rest =>
    if isAllowedTextN f then addContentN f txt :: rest
    else f :: attachText txt rest

def handleText (txt : String) (st : PState) : PState :=
  ⟨attachText txt st.stack, st.rootResult⟩

/-- The auto-close cascade of `NodeCreator._handle_new_node`, walking
outward with the current top held separately: if the top can contain the new
tag stop (the new node will attach to it when closed); otherwise close the
top into the node beneath it and continue. -/
def cascadeGo (nm : Option String) (top : HTMLNode) :
    List HTMLNode → Option HTMLNode → PState
  | [], rr =>
    if canContainN top nm then ⟨[top], rr⟩ else ⟨[], closeBottom top rr⟩
  | g :: rest, rr =>
    if canContainN top nm then ⟨top :: g :: rest, rr⟩
    else cascadeGo nm (addChildN g top) rest rr

def newNodeCascade (nm : Option String) (st : PState) : PState :=
  match st.stack with
  | [] => st
  | f :: rest => cascadeGo nm f rest st.rootResult

/-- `NodeCreator._handle_new_node`: cascade, then push the new node (its
attachment to the permitting node happens when it is itself closed). -/
def handleNewNode (nm : Option String)
    (attrs : List (Option String × Option String)) (st : PState) : PState :=
  let st2 := newNodeCascade nm st
  ⟨newElementNode nm attrs :: st2.stack, st2.rootResult⟩

/-- `NodeCreator._close_node_by_name`: close and pop outward until the node
just closed carries the requested name (closing everything otherwise). -/
def cbnGo (nm : Option String) (top : HTMLNode) :
    List HTMLNode → Option HTMLNode → PState
  | [], rr => ⟨[], closeBottom top rr⟩
  | g :: rest, rr =>
    if top.nameOf = nm then ⟨addChildN g top :: rest, rr⟩
    else cbnGo nm (addChildN g top) rest rr

def closeByName (nm : Option String) (st : PState) : PState :=
  match st.stack with
  | [] => st
  | f :: rest => cbnGo nm f rest st.rootResult

/-- `piece[4:-3]` (comment text). -/
def sliceComment (piece : String) : String :=
  ⟨(piece.data.take (piece.data.length - 3)).drop 4⟩

/-- One piece of `NodeCreator.create`'s loop. -/
def createStep (st : PState) (piece : String) : Except String PState :=
  let pt := parseTag piece
  if piece = DOCTYPE then handleDoctype st
  else if pt.tagName = some COMMENT_KEY then .ok (handleComment (sliceComment piece) st)
  else if pt.tagName = some TEXT_KEY then .ok (handleText piece st)
  else if pt.isClosing then .ok (closeByName pt.tagName st)
  else .ok (handleNewNode pt.tagName (dictOfPairs pt.attrs) st)

def runPieces (st : PState) : List String → Except String PState
  | [] => .ok st
  | p :: rest =>
    match createStep st p with
    | .ok st2 => runPieces st2 rest
    | .error e => .error e

/-- Close every remaining open node (the effect of the final
`root.close()`), yielding the completed root tree. -/
def collapseGo (top : HTMLNode) : List HTMLNode → Option HTMLNode → Option HTMLNode
  | [], rr => closeBottom top rr
  | g :: rest, rr => collapseGo (addChildN g top) rest rr

/-- The final `self._close_node(root, stack)` of `NodeCreator.create`:
`stack.pop()` raises IndexError on an empty stack; otherwise the tree rooted
at the original root node is the result. -/
def finalize (st : PState) : Except String HTMLNode :=
  match st.stack with
  | [] => .error "IndexError: pop from empty list"
  | f :: rest =>
    match collapseGo f rest st.rootResult with
    | some r => .ok r
    | none => .error "lost root"

/-- `NodeCreator.create` on an already-flattened list of string pieces. -/
def createFromPieces (ps : List String) : Except String HTMLNode :=
  match runPieces initState ps with
  | .ok st => finalize st
  | .error e => .error e

/-- The one-level flattening of `NodeCreator.create`'s list comprehension:
a template reference expands to the template's own `_allpieces`.  A template
reference nested inside a template is passed to `_parse_tag` as a Builder
object in the source, which fails with a TypeError; modelled as an error. -/
def stringsOnly : List Frag → Except String (List String)
  | [] => .ok []
  | .str s :: rest => (stringsOnly rest).map (s :: ·)
  | .tpl _ :: rest => .error "TypeError: Builder piece inside a template"

def flattenFrags (ts : List (String × Builder)) : List Frag → Except String (List String)
  | [] => .ok []
  | .str s :: rest => (flattenFrags ts rest).map (s :: ·)
  | .tpl nm :: rest =>
    match lookupTemplate ts nm with
    | none => .error "unresolved template reference"
    | some tb =>
      match stringsOnly (allpieces tb) with
      | .ok l => (flattenFrags ts rest).map (l ++ ·)
      | .error e => .error e

def builderPieces (b : Builder) : Except String (List String) :=
  flattenFrags b.templates (allpieces b)

/-! ## parser.py: HTMLSyntaxTree (named HTMLTree here) -/

/-- `HTMLSyntaxTree`: the reconstructed root and the originating Builder. -/
structure HTMLTree where
  rootN : HTMLNode
  builderOf : Builder

/-- `HTMLSyntaxTree.create`. -/
def HTMLTree.create (b : Builder) : Except String HTMLTree :=
  match builderPieces b with
  | .error e => .error e
  | .ok ps =>
    match createFromPieces ps with
    | .ok r => .ok ⟨r, b⟩
    | .error e => .error e

def optStr : Option String → String
  | some s => s
  | none => "None"

def joinSpaceSep : List String → String
  | [] => ""
  | [s] => s
  | s :: rest => s ++ " " ++ joinSpaceSep rest

/-- `HTMLNode.opening_tag` and its overrides, by kind. -/
def openingTagKN (k : NodeKind) (n : Option String)
    (attrs : List (Option String × Option String)) (content : String) : String :=
  match k with
  | .root => ""
  | .doctype => DOCTYPE
  | .commentK => "<!-- " ++ content ++ " -->"
  | .element =>
    "<" ++ optStr n
    ++ (if attrs.isEmpty then ""
        else " " ++ joinSpaceSep (attrs.map (fun kv => optStr kv.1 ++ "=" ++ optStr kv.2)))
    ++ ">"

/-- The `content` property (`CommentNode` overrides it to the empty
string). -/
def contentPropKC (k : NodeKind) (c : String) : String :=
  match k with
  | .commentK => ""
  | _ => c

def repeatStr (s : String) : Nat → String
  | 0 => ""
  | n + 1 => s ++ repeatStr s n

mutual

/-- `HTMLSyntaxTree._to_html` (pretty mode). -/
def toHtmlAux (nd : HTMLNode) (indent : String) (level : Nat) : String :=
  match nd with
  | .mk k n a c ch e =>
    repeatStr indent level ++ openingTagKN k n a c ++ "\n"
    ++ (let cp := contentPropKC k c
        if cp = "" then "" else repeatStr indent (level + 1) ++ cp ++ "\n")
    ++ toHtmlChildren ch indent (level + (match k with | .root => 0 | _ => 1))
    ++ (if e then repeatStr indent level ++ "</" ++ optStr n ++ ">" ++ "\n" else "")

def toHtmlChildren (l : List HTMLNode) (indent : String) (level : Nat) : String :=
  match l with
  | [] => ""
  | c :: rest => toHtmlAux c indent level ++ toHtmlChildren rest indent level

end

/-- `HTMLSyntaxTree.to_html`: plain mode returns `str(self._builder)`
verbatim; pretty mode renders the tree. -/
def HTMLTree.toHtml (t : HTMLTree) (pretty : Bool) (indent : String) : String :=
  if pretty then toHtmlAux t.rootN indent 0 else renderB t.builderOf

mutual

/-- No node of the tree has a direct element child that its own
content-model entry forbids. -/
def goodNode : HTMLNode → Bool
  | .mk k n _ _ ch _ => goodChildren k n ch

def goodChildren (k : NodeKind) (n : Option String) : List HTMLNode → Bool
  | [] => true
  | c :: rest =>
    (match c.kindOf with
     | .element => canContainKN k n c.nameOf
     | _ => true) && goodNode c && goodChildren k n rest

end

def exOk {α : Type} : Except String α → Bool
  | .ok _ => true
  | .error _ => false

/-! ## Definitions used in the claim analyses -/

/-- Modelled on the amended claim wording: remove every trailing underscore,
then turn each remaining underscore into a hyphen.  Written by structural
recursion from the front, independently of the source's
rstrip-then-replace pipeline. -/
def dropTrailingU : List Char → List Char
  | [] => []
  | c :: cs =>
    match dropTrailingU cs with
    | [] => if c = '_' then [] else [c]
    | r => c :: r

def mangleAmended (s : String) : String := ⟨(dropTrailingU s.data).map hyphenate⟩

/-- One attribute as the claim states it: a `None`/`False` value is omitted
entirely, `True` renders bare, any other value is stringified and emitted
unquoted when alphanumeric, otherwise double-quoted with `&` and `"`
replaced by entity references. -/
def attrEntryRender (kv : String × AttrValue) : String :=
  match kv.2 with
  | .vNone => ""
  | .vFalse => ""
  | .vTrue => " " ++ mangle kv.1
  | .vStr s => " " ++ mangle kv.1 ++ "=" ++ (if pyIsAlnum s then s else quoteAttr s)

def c5ops : List Op :=
  [Op.tag "div", Op.enterScope, Op.tag "p", Op.call [Content.cText "hello"] [],
   Op.exitScope]

def c5builder : Builder :=
  .mk "E Builder" [.str "<div>", .str "<p>", .str "hello", .str "</div>"] [] "" []

def c3builder : Builder :=
  .mk "E Builder" [.str "<div>", .str "hi", .str "</div>"] [] "" []

def c3tree : HTMLTree :=
  ⟨.mk .root (some "__root__") [] ""
    [.mk .element (some "div") [] "hi" [] true] false, c3builder⟩

/-- The template Builder produced by a slot assignment with a plain string
value: cleared in place, then refilled with the escaped value. -/
def assignedTpl (tb : Builder) (v : String) : Builder :=
  .mk tb.name [.str (escape v)] [] "" []

/-- The whole Builder after `doc.Slot = v`: the piece stream is untouched
(so existing slot references stay valid) and only the slot's entry in the
template map is renewed, in place. -/
def afterAssign (b : Builder) (nm : String) (tb : Builder) (v : String) : Builder :=
  b.setTemplates (alistInsert b.templates nm (assignedTpl tb v))

def bw4 : Builder :=
  .mk "Doc" [.tpl "Slot", .str "|", .tpl "Slot"] [("Slot", emptyB "Slot")] "" []

/-- A piece that is an end tag: it starts with the two characters `</`. -/
def isEndTag (s : String) : Bool :=
  match s.data with
  | c1 :: c2 :: _ => c1 = '<' && c2 = '/'
  | _ => false

def fragStrOpt : Frag → Option String
  | .str s => some s
  | .tpl _ => none

/-- The string pieces of `_allpieces` in render order (template references
contribute no string piece of their own here). -/
def strPieces (b : Builder) : List String :=
  b.pieces.filterMap fragStrOpt ++ [b.endtag] ++ b.stack.reverse

/-- The end-tag pieces of the Builder's output, in render order. -/
def endTagPieces (b : Builder) : List String := (strPieces b).filter isEndTag

def noTpl (b : Builder) : Bool :=
  b.pieces.all (fun f => match f with | .str _ => true | .tpl _ => false)

/-- The end tag an operation owes the output: a tag-open of a non-omit-set
element owes exactly its closing tag; everything else owes none. -/
def opensOfOp : Op → List String
  | .tag nm =>
    if omitEndtag.contains (mangle nm) then [] else ["</" ++ mangle nm ++ ">"]
  | _ => []

def opensList : List Op → List String
  | [] => []
  | op :: rest => opensOfOp op ++ opensList rest

def structuralContent : Content → Bool
  | .cNone => true
  | .cText _ => true
  | _ => false

/-- The operations the claim ranges over: tag opens (with Python-identifier
names, as attribute access produces), attribute attachment, plain content
appends, scoped enter/exit, comments and inline script/style — no raw-HTML
content and no template machinery. -/
def structuralOp : Op → Bool
  | .tag nm => nm.data.all isWordChar
  | .call cs _ => cs.all structuralContent
  | .usc cs => cs.all structuralContent
  | .enterScope => true
  | .exitScope => true
  | .comment _ => true
  | .script _ _ => true
  | .style _ _ => true
  | .tplInsert _ => false
  | .tplAssign _ _ => false

/-- Count of end-tag pieces among a Builder component. -/
def etCountP (p : List Frag) (s : String) : Nat :=
  ((p.filterMap fragStrOpt).filter isEndTag).count s

def etCount1 (e s : String) : Nat :=
  if isEndTag e = true ∧ e = s then 1 else 0

def etCountL (st : List String) (s : String) : Nat :=
  (st.filter isEndTag).count s

def c2cexOps : List Op := [Op.tag "div", Op.tag "span"]

def c2cexB : Builder :=
  .mk "E Builder" [.str "<div>", .str "</div>", .str "<span>"] [] "</span>" []

def c2wOps : List Op :=
  [Op.tag "div", Op.enterScope, Op.tag "ul", Op.tag "li",
   Op.call [Content.cText "x"] []]

def c2wB : Builder :=
  .mk "E Builder" [.str "<div>", .str "<ul>", .str "</ul>", .str "<li>", .str "x"]
    [] "" ["</div>"]

/-- Every adjacent pair of open nodes satisfies the content model: the node
beneath can contain the node above it (checked when the upper node was
pushed). -/
def chainOK : List HTMLNode → Bool
  | [] => true
  | [_] => true
  | f :: g :: rest => canContainN g f.nameOf && chainOK (g :: rest)

def allGood : List HTMLNode → Bool
  | [] => true
  | f :: rest => goodNode f && allGood rest

/-- The reconstruction invariant: the stack chain respects the content
model, every (partial) node on it is content-model clean, and so is a
completed root. -/
def InvP (st : PState) : Prop :=
  chainOK st.stack = true ∧ allGood st.stack = true ∧
  (∀ r, st.rootResult = some r → goodNode r = true)

def headShape (l : List HTMLNode) : Option (NodeKind × Option String) :=
  l.head?.map (fun f => (f.kindOf, f.nameOf))

def c1node : HTMLNode :=
  .mk .root (some "__root__") [] ""
    [.mk .element (some "ul") [] "" [] true,
     .mk .element (some "p") [] "" [] false] false

/-! ## Rendering infrastructure lemmas -/

theorem bsize_pos (b : Builder) : 0 < bsize b := by
  cases b
  simp [bsize]

theorem lookupTemplate_tsize {ts : List (String × Builder)} {k : String}
    {tb : Builder} (h : lookupTemplate ts k = some tb) : bsize tb ≤ tsize ts := by
  induction ts with
  | nil => simp [lookupTemplate, alistLookup] at h
  | cons hd tl ih =>
    obtain ⟨k2, v⟩ := hd
    by_cases hk : k2 = k
    · simp [lookupTemplate, alistLookup, hk] at h
      subst h
      simp [tsize]
    · simp [lookupTemplate, alistLookup, hk] at h
      have := ih h
      simp [tsize]
      omega

theorem lookupTemplate_bsize_lt {b : Builder} {k : String} {tb : Builder}
    (h : lookupTemplate b.templates k = some tb) : bsize tb < bsize b := by
  have h1 := lookupTemplate_tsize h
  cases b with
  | mk n p ts e s =>
    simp [Builder.templates] at h1
    simp [bsize]
    omega

theorem renderFuelB_congr :
    ∀ (fuel1 fuel2 : Nat) (b : Builder), bsize b ≤ fuel1 → bsize b ≤ fuel2 →
      renderFuelB fuel1 b = renderFuelB fuel2 b := by
  intro fuel1
  induction fuel1 with
  | zero =>
    intro fuel2 b h1 _
    exact absurd h1 (by have := bsize_pos b; omega)
  | succ n ih =>
    intro fuel2 b h1 h2
    match fuel2 with
    | 0 => exact absurd h2 (by have := bsize_pos b; omega)
    | m + 1 =>
      simp only [renderFuelB]
      congr 1
      apply List.map_congr_left
      intro f _
      match f with
      | .str s => rfl
      | .tpl nm =>
        simp only
        match hlk : lookupTemplate b.templates nm with
        | none => rfl
        | some tb =>
          have hlt : bsize tb < bsize b := lookupTemplate_bsize_lt hlk
          exact ih m tb (by omega) (by omega)

/-- Unfolding `renderB` one level: the concatenation of the per-piece
renderings, as `__str__` computes it. -/
theorem renderB_unfold (b : Builder) :
    renderB b = joinAll ((allpieces b).map (fragRender b)) := by
  have h : bsize b = (bsize b - 1) + 1 := by
    have := bsize_pos b
    omega
  rw [renderB, h]
  simp only [renderFuelB]
  congr 1
  apply List.map_congr_left
  intro f _
  match f with
  | .str s => rfl
  | .tpl nm =>
    simp only [fragRender]
    match hlk : lookupTemplate b.templates nm with
    | none => rfl
    | some tb =>
      have hlt : bsize tb < bsize b := lookupTemplate_bsize_lt hlk
      exact renderFuelB_congr _ _ tb (by omega) (by omega)

/-! ## Generic string lemmas -/

theorem strExt {a b : String} (h : a.data = b.data) : a = b := by
  cases a
  cases b
  simp only at h
  rw [h]

theorem str_data_append (a b : String) : (a ++ b).data = a.data ++ b.data := by
  cases a
  cases b
  rfl

theorem str_nil_append (a : String) : "" ++ a = a := by
  apply strExt
  rw [str_data_append]
  rfl

theorem str_append_nil (a : String) : a ++ "" = a := by
  apply strExt
  rw [str_data_append]
  simp

theorem str_append_assoc (a b c : String) : a ++ b ++ c = a ++ (b ++ c) := by
  apply strExt
  simp [str_data_append]

theorem joinAll_append (l1 l2 : List String) :
    joinAll (l1 ++ l2) = joinAll l1 ++ joinAll l2 := by
  induction l1 with
  | nil => simp [joinAll, str_nil_append]
  | cons s rest ih => simp [joinAll, ih, str_append_assoc]

/-! ## Claim C9: the identifier mangler -/

theorem dropWhile_concat_char (u : Char → Bool) (xs : List Char) (c : Char) :
    (xs ++ [c]).dropWhile u =
      if xs.dropWhile u = [] then (if u c then [] else [c])
      else xs.dropWhile u ++ [c] := by
  induction xs with
  | nil =>
    by_cases hc : u c <;> simp [List.dropWhile, hc]
  | cons x xs ih =>
    by_cases hx : u x
    · simpa [List.dropWhile, hx] using ih
    · simp [List.dropWhile, hx]

theorem rstripU_eq_dropTrailingU (cs : List Char) : rstripU cs = dropTrailingU cs := by
  induction cs with
  | nil => rfl
  | cons c cs ih =>
    unfold rstripU at ih ⊢
    rw [List.reverse_cons, dropWhile_concat_char]
    by_cases hnil : cs.reverse.dropWhile (fun c => decide (c = '_')) = []
    · have hd : dropTrailingU cs = [] := by
        rw [← ih, hnil]
        rfl
      rw [if_pos hnil]
      by_cases hc : c = '_'
      · simp [dropTrailingU, hd, hc]
      · simp [dropTrailingU, hd, hc]
    · rw [if_neg hnil]
      have hd : dropTrailingU cs ≠ [] := by
        rw [← ih]
        simpa using hnil
      cases heq : dropTrailingU cs with
      | nil => exact absurd heq hd
      | cons a l =>
        have h2 : List.dropWhile (fun c => decide (c = '_')) cs.reverse = (a :: l).reverse := by
          have h3 := ih
          rw [heq] at h3
          rw [← h3, List.reverse_reverse]
        rw [h2]
        simp [dropTrailingU, heq]

/-- C9 counterexample: the claim predicts that a name ending in exactly two
underscores keeps one of them as a hyphen (`mangle "a__" = "a-"`); the
source's `rstrip("_")` removes every trailing underscore, so
`mangle "a__" = "a"`. -/
theorem c9_counterexample : mangle "a__" = "a" ∧ mangle "a__" ≠ "a-" := by
  exact ⟨rfl, by decide⟩

/-- C9 (amended): the identifier mangler strips every trailing underscore
(not just one) and replaces the remaining underscores with hyphens; in
particular a name ending in exactly two underscores loses both. -/
theorem c9_mangle_amended :
    (∀ s : String, mangle s = mangleAmended s) ∧ mangle "a__" = "a" := by
  refine ⟨?_, rfl⟩
  intro s
  unfold mangle mangleAmended
  rw [rstripU_eq_dropTrailingU]

/-! ## Claim C6: attribute rendering -/

/-- C6: attribute rendering omits None/False values, renders True bare, and
stringifies any other value, unquoted when alphanumeric and double-quoted
with `&`/`"` escaped otherwise; attaching id="x", hidden=True,
disabled=False to a freshly opened tag produces exactly the opening-tag
piece `<tag id=x hidden>`. -/
theorem c6_attribute_rendering :
    (∀ kvs : List (String × AttrValue),
        attributes kvs = joinAll (kvs.map attrEntryRender))
  ∧ execs [Op.tag "tag",
       Op.call [] [("id", .vStr "x"), ("hidden", .vTrue), ("disabled", .vFalse)]]
      (emptyB "E Builder")
    = .ok (Builder.mk "E Builder" [.str "<tag id=x hidden>"] [] "</tag>" []) := by
  refine ⟨?_, rfl⟩
  intro kvs
  induction kvs with
  | nil => rfl
  | cons kv rest ih =>
    obtain ⟨k, v⟩ := kv
    cases v <;> simp [attributes, attrEntryRender, joinAll, ih, str_nil_append]

/-! ## Claim C5: div > p > "hello" with p left open -/

/-- C5 counterexample: the claim predicts `<div><p>hello</p></div>`, but
`p` is in the omit-end-tag set, so the builder never emits `</p>`. -/
theorem c5_counterexample :
    execs c5ops (emptyB "E Builder") = .ok c5builder ∧
    renderB c5builder ≠ "<div><p>hello</p></div>" :=
  ⟨rfl, by decide⟩

/-- C5 (amended): building div > p > "hello" with p never explicitly closed
and div closed by exiting its scope renders `<div><p>hello</div>` — the
`p` element is in the omit set, so no `</p>` is emitted at all, and `</div>`
comes from the scope exit. -/
theorem c5_div_p_render :
    execs c5ops (emptyB "E Builder") = .ok c5builder ∧
    renderB c5builder = "<div><p>hello</div>" :=
  ⟨rfl, rfl⟩

/-! ## Claim C7: attribute attachment errors -/

theorem callB_last_none {b : Builder} (h : b.pieces.getLast? = none)
    (content : List Content) (attrs : List (String × AttrValue)) :
    callB b content attrs =
      if attrs ≠ [] then .error "IndexError: list index out of range"
      else if content.isEmpty then .ok b
      else .ok (endtagClose (underscoreB b content)) := by
  unfold callB callFuel
  rw [h]

theorem callB_last_str {b : Builder} {tag : String}
    (h : b.pieces.getLast? = some (.str tag))
    (content : List Content) (attrs : List (String × AttrValue)) :
    callB b content attrs =
      match (if attrs = [] then .ok b
             else if openCheck tag then
               .ok (b.setPieces (b.pieces.dropLast ++ [.str (mergeTag tag attrs)]))
             else .error "Can only add attrs to opening tags" : Except String Builder) with
      | .error e => .error e
      | .ok b2 =>
        if content.isEmpty then .ok b2
        else .ok (endtagClose (underscoreB b2 content)) := by
  unfold callB callFuel
  rw [h]

theorem callB_last_tpl {b : Builder} {nm : String}
    (h : b.pieces.getLast? = some (.tpl nm))
    (content : List Content) (attrs : List (String × AttrValue)) (ha : attrs ≠ []) :
    callB b content attrs = .error "Cannot add attributes to a template placeholder" := by
  unfold callB callFuel
  rw [h]
  simp [ha]

/-- C7 (amended): with attributes supplied, `__call__` raises when there is
no piece at all, when the last piece is a template reference, and when the
last piece fails the syntactic opening-tag check (first character `<`, last
character `>`, not starting with `</`) — so closing tags and text raise;
but any piece passing that check (including comments and complete inline
script/style elements) accepts the attributes, merged in before its final
`>`. -/
theorem c7_attrs_requirements :
    (∀ (b : Builder) (content : List Content) (attrs : List (String × AttrValue)),
        attrs ≠ [] → b.pieces.getLast? = none →
        exOk (callB b content attrs) = false)
  ∧ (∀ (b : Builder) (content : List Content) (attrs : List (String × AttrValue))
        (nm : String),
        attrs ≠ [] → b.pieces.getLast? = some (.tpl nm) →
        exOk (callB b content attrs) = false)
  ∧ (∀ (b : Builder) (content : List Content) (attrs : List (String × AttrValue))
        (s : String),
        attrs ≠ [] → b.pieces.getLast? = some (.str s) → openCheck s = false →
        exOk (callB b content attrs) = false)
  ∧ (∀ (b : Builder) (attrs : List (String × AttrValue)) (s : String),
        attrs ≠ [] → b.pieces.getLast? = some (.str s) → openCheck s = true →
        callB b [] attrs =
          .ok (b.setPieces (b.pieces.dropLast ++ [.str (mergeTag s attrs)]))) := by
  refine ⟨?_, ?_, ?_, ?_⟩
  · intro b content attrs ha h
    rw [callB_last_none h, if_pos ha]
    rfl
  · intro b content attrs nm ha h
    rw [callB_last_tpl h content attrs ha]
    rfl
  · intro b content attrs s ha h hoc
    rw [callB_last_str h]
    rw [if_neg ha, if_neg (by simp [hoc])]
    rfl
  · intro b attrs s ha h hoc
    rw [callB_last_str h]
    rw [if_neg ha, if_pos hoc]
    rfl

/-- C7 witness: attributes after a closing-tag piece raise. -/
theorem c7_witness :
    ((([("id", AttrValue.vStr "y")] : List (String × AttrValue)) ≠ [])
      ∧ (Builder.mk "E" [.str "</div>"] [] "" []).pieces.getLast? = some (.str "</div>")
      ∧ openCheck "</div>" = false)
  ∧ exOk (callB (Builder.mk "E" [.str "</div>"] [] "" []) [] [("id", AttrValue.vStr "y")])
      = false :=
  ⟨⟨by decide, rfl, by decide⟩,
   c7_attrs_requirements.2.2.1 (Builder.mk "E" [.str "</div>"] [] "" []) []
     [("id", AttrValue.vStr "y")] "</div>" (by decide) rfl (by decide)⟩

/-- C7 counterexample: the last piece is a comment — not an opening tag —
yet supplying attributes raises no error; they are merged into the comment
before its final `>`. -/
theorem c7_counterexample :
    callB (Builder.mk "E" [.str "<!--x-->"] [] "" []) [] [("id", AttrValue.vStr "y")]
      = .ok (Builder.mk "E" [.str "<!--x-- id=y>"] [] "" []) := rfl

/-! ## Claim C8: doctype placement -/

/-- C8 (amended): the doctype handler raises exactly when a node other than
the root is still open (stack deeper than one) — not whenever any content
appeared earlier; with only the bottom node open, a doctype node is appended
to it (the root, when the doctype is the first piece). -/
theorem c8_doctype_handling :
    (∀ (st : PState) (f g : HTMLNode) (rest : List HTMLNode),
        st.stack = f :: g :: rest →
        handleDoctype st = .error "Doctype must be the first element")
  ∧ (∀ (f : HTMLNode) (rr : Option HTMLNode),
        handleDoctype ⟨[f], rr⟩ = .ok ⟨[addChildN f doctypeNode], rr⟩)
  ∧ createFromPieces ["<!DOCTYPE html>"] = .ok (addChildN rootNode doctypeNode) := by
  refine ⟨?_, ?_, rfl⟩
  · intro st f g rest h
    unfold handleDoctype
    rw [if_pos (by rw [h]; simp)]
  · intro f rr
    unfold handleDoctype
    rfl

/-- C8 witness: a doctype with a div still open raises. -/
theorem c8_witness :
    handleDoctype ⟨[newElementNode (some "div") [], rootNode], none⟩
      = .error "Doctype must be the first element" :=
  c8_doctype_handling.1 ⟨[newElementNode (some "div") [], rootNode], none⟩
    (newElementNode (some "div") []) rootNode [] rfl

/-- C8 counterexample: content has opened (and closed) before the doctype
piece, yet reconstruction succeeds — the claim predicted an error for any
doctype after other content has opened. -/
theorem c8_counterexample :
    exOk (createFromPieces ["<div>", "</div>", "<!DOCTYPE html>"]) = true := by decide

/-! ## Claim C10: text with no text-permitting open node -/

/-- C10: a plain-text piece finding no text-allowed node on the open stack
(the root is not text-allowed) is silently discarded: the handler returns
the state unchanged and raises nothing, and such text never appears in the
pretty-printed output. -/
theorem c10_text_dropped :
    (∀ (txt : String) (st : PState),
        (∀ f ∈ st.stack, isAllowedTextN f = false) → handleText txt st = st)
  ∧ isAllowedTextN rootNode = false
  ∧ createFromPieces ["hello"] = .ok rootNode
  ∧ toHtmlAux rootNode "    " 0 = "\n" := by
  refine ⟨?_, rfl, rfl, rfl⟩
  intro txt st hall
  have hat : ∀ (l : List HTMLNode), (∀ f ∈ l, isAllowedTextN f = false) →
      attachText txt l = l := by
    intro l
    induction l with
    | nil => intro _; rfl
    | cons f rest ih =>
      intro hl
      have hf := hl f (by simp)
      simp only [attachText, hf]
      rw [if_neg (by simp [hf])]
      rw [ih (fun g hg => hl g (by simp [hg]))]
  cases st with
  | mk stk rr =>
    simp only [handleText]
    rw [hat stk (fun f hf => hall f hf)]

/-- C10 witness: dropping text at the root-only state. -/
theorem c10_witness :
    (∀ f ∈ initState.stack, isAllowedTextN f = false)
  ∧ handleText "hello" initState = initState :=
  ⟨by decide, c10_text_dropped.1 "hello" initState (by decide)⟩

/-! ## Claim C3: plain serialization is the Builder's own rendering -/

/-- C3: whenever the reconstructor accepts a Builder's flattened pieces
without raising, serializing the resulting syntax tree in plain
(non-pretty) mode returns exactly the Builder's own direct string
rendering. -/
theorem c3_plain_roundtrip (b : Builder) (t : HTMLTree)
    (h : HTMLTree.create b = .ok t) :
    HTMLTree.toHtml t false "    " = renderB b := by
  unfold HTMLTree.create at h
  split at h
  · exact absurd h (by simp)
  · split at h
    · simp only [Except.ok.injEq] at h
      rw [← h]
      rfl
    · exact absurd h (by simp)

/-- C3 witness: a concrete accepted builder. -/
theorem c3_witness :
    HTMLTree.create c3builder = .ok c3tree
  ∧ HTMLTree.toHtml c3tree false "    " = renderB c3builder :=
  ⟨rfl, c3_plain_roundtrip c3builder c3tree rfl⟩

/-! ## Claim C4: template slot assignment propagates to all references -/

theorem clearB_eq (tb : Builder) : clearB tb = Builder.mk tb.name [] [] "" [] := by
  cases tb
  rfl

theorem callB_clear (n v : String) :
    callB (Builder.mk n [] [] "" []) [.cText v] []
      = .ok (Builder.mk n [.str (escape v)] [] "" []) := rfl

theorem alistLookup_insert {β : Type} (l : List (String × β)) (k : String) (v : β) :
    alistLookup (alistInsert l k v) k = some v := by
  induction l with
  | nil => simp [alistInsert, alistLookup]
  | cons hd rest ih =>
    obtain ⟨k2, v2⟩ := hd
    by_cases hk : k2 = k
    · simp [alistInsert, alistLookup, hk]
    · simp [alistInsert, alistLookup, hk, ih]

theorem setTemplates_pieces (b : Builder) (ts : List (String × Builder)) :
    (b.setTemplates ts).pieces = b.pieces := by
  cases b
  rfl

theorem setTemplates_templates (b : Builder) (ts : List (String × Builder)) :
    (b.setTemplates ts).templates = ts := by
  cases b
  rfl

theorem renderB_assigned (n v : String) :
    renderB (Builder.mk n [.str (escape v)] [] "" []) = escape v := by
  show escape v ++ ("" ++ "") = escape v
  exact str_append_nil _

/-- C4: assigning a value to a named template slot keeps the parent's piece
stream identical (the references at every insertion point are untouched),
replaces the slot's Builder content in place with the escaped value, so
every reference to that slot — however many insertion points it has —
renders the updated value, and the Builder's rendering is the concatenation
of the per-piece renderings under the updated template map. -/
theorem c4_slot_propagation (b : Builder) (nm : String) (tb : Builder) (v : String)
    (h : lookupTemplate b.templates nm = some tb) :
    tplAssignB b nm (.cText v) = .ok (afterAssign b nm tb v)
  ∧ (afterAssign b nm tb v).pieces = b.pieces
  ∧ fragRender (afterAssign b nm tb v) (.tpl nm) = escape v
  ∧ renderB (afterAssign b nm tb v)
      = joinAll ((allpieces (afterAssign b nm tb v)).map (fragRender (afterAssign b nm tb v))) := by
  refine ⟨?_, setTemplates_pieces b _, ?_, renderB_unfold _⟩
  · simp only [tplAssignB, h, clearB_eq, callB_clear, afterAssign, assignedTpl]
  · have hlk : lookupTemplate (afterAssign b nm tb v).templates nm
        = some (assignedTpl tb v) := by
      unfold afterAssign
      rw [setTemplates_templates]
      exact alistLookup_insert b.templates nm (assignedTpl tb v)
    simp only [fragRender, hlk]
    exact renderB_assigned tb.name v

/-! ## Claim C2: balanced end tags -/

theorem isEndTag_append_close (t : String) : isEndTag ("</" ++ t ++ ">") = true := by
  unfold isEndTag
  rw [str_data_append, str_data_append]
  rfl

theorem isEndTag_empty : isEndTag "" = false := rfl

theorem mangle_chars {nm : String} (h : nm.data.all isWordChar = true) :
    ∀ c ∈ (mangle nm).data, c.isAlphanum = true ∨ c = '-' := by
  intro c hc
  have hdata : (mangle nm).data = (rstripU nm.data).map hyphenate := rfl
  rw [hdata] at hc
  obtain ⟨c0, hc0, hcc⟩ := List.mem_map.mp hc
  have hc0mem : c0 ∈ nm.data := by
    have hsub : rstripU nm.data ⊆ nm.data := by
      intro x hx
      unfold rstripU at hx
      rw [List.mem_reverse] at hx
      have := (List.dropWhile_sublist (l := nm.data.reverse)
        (p := fun c => decide (c = '_'))).subset hx
      rwa [List.mem_reverse] at this
    exact hsub hc0
  have hw : isWordChar c0 = true := by
    rw [List.all_eq_true] at h
    exact h c0 hc0mem
  unfold isWordChar at hw
  rw [Bool.or_eq_true] at hw
  rcases hw with hw | hw
  · left
    rw [← hcc]
    unfold hyphenate
    have hne : c0 ≠ '_' := by
      intro he
      rw [he] at hw
      exact absurd hw (by decide)
    rw [if_neg hne]
    exact hw
  · right
    rw [← hcc]
    unfold hyphenate
    rw [if_pos (by exact of_decide_eq_true hw)]

theorem isEndTag_open_tag {nm : String} (h : nm.data.all isWordChar = true) :
    isEndTag ("<" ++ mangle nm ++ ">") = false := by
  unfold isEndTag
  rw [str_data_append, str_data_append]
  cases hd : (mangle nm).data with
  | nil => rfl
  | cons c rest =>
    have hc := mangle_chars h c (by rw [hd]; simp)
    have hcne : c ≠ '/' := by
      rcases hc with hc | hc
      · intro he
        rw [he] at hc
        exact absurd hc (by decide)
      · intro he
        rw [he] at hc
        exact absurd hc (by decide)
    simp [hcne]

theorem isEndTag_escape (s : String) : isEndTag (escape s) = false := by
  unfold isEndTag escape
  cases s with
  | mk data =>
    simp only
    cases data with
    | nil => rfl
    | cons c cs =>
      show (match escapeCore (c :: cs) with
        | c1 :: c2 :: _ => decide (c1 = '<') && decide (c2 = '/')
        | _ => false) = false
      rw [show escapeCore (c :: cs) = escChar c ++ escapeCore cs from rfl]
      unfold escChar
      by_cases h1 : c = '&'
      · simp [h1]
      · by_cases h2 : c = '<'
        · simp [h1, h2]
        · rw [if_neg h1, if_neg h2]
          cases hec : escapeCore cs with
          | nil => simp [h2]
          | cons d ds => simp [h2]

theorem isEndTag_comment (x : String) : isEndTag ("<!--" ++ x ++ "-->") = false := by
  unfold isEndTag
  rw [str_data_append, str_data_append]
  simp

theorem isEndTag_script_piece (x : String) : isEndTag ("<script" ++ x) = false := by
  unfold isEndTag
  rw [str_data_append]
  simp

theorem isEndTag_style_piece (x : String) : isEndTag ("<style" ++ x) = false := by
  unfold isEndTag
  rw [str_data_append]
  simp

/-- `attributes` output is empty or begins with a space. -/
theorem attributes_space (as : List (String × AttrValue)) :
    (attributes as).data = [] ∨ ∃ l, (attributes as).data = ' ' :: l := by
  induction as with
  | nil => left; rfl
  | cons kv rest ih =>
    obtain ⟨k, v⟩ := kv
    cases v with
    | vNone => exact ih
    | vFalse => exact ih
    | vTrue =>
      right
      refine ⟨(mangle k).data ++ (attributes rest).data, ?_⟩
      show (" " ++ mangle k ++ attributes rest).data = _
      rw [str_data_append, str_data_append]
      rfl
    | vStr s =>
      right
      refine ⟨((mangle k).data ++ ("=".data
        ++ (if pyIsAlnum s then s else quoteAttr s).data)) ++ (attributes rest).data, ?_⟩
      show (" " ++ mangle k ++ "=" ++ (if pyIsAlnum s then s else quoteAttr s)
        ++ attributes rest).data = _
      simp only [str_data_append, List.append_assoc]
      rfl

theorem isEndTag_mergeTag {tag : String} (hoc : openCheck tag = true)
    (attrs : List (String × AttrValue)) : isEndTag (mergeTag tag attrs) = false := by
  unfold openCheck at hoc
  unfold isEndTag mergeTag
  rw [str_data_append, str_data_append]
  cases htd : tag.data with
  | nil => rw [htd] at hoc; exact absurd hoc (by simp)
  | cons c1 rest =>
    rw [htd] at hoc
    cases rest with
    | nil =>
      revert hoc
      split
      · intro h; exact absurd h (by simp)
      · intro h; exact absurd h (by simp)
      · rename_i rest heq
        intro hoc
        injection heq with he1 he2
        rw [← he2] at hoc
        simp at hoc
      · intro h; exact absurd h (by simp)
    | cons c2 rest2 =>
      have hc1 : c1 = '<' := by
        revert hoc
        split
        · intro h; exact absurd h (by simp)
        · rename_i heq
          injection heq with he1 he2
          intro _
          exact he1
        · rename_i rest heq
          injection heq with he1 he2
          intro _
          exact he1
        · rename_i hne
          intro h
          exact absurd h (by simp)
      have hc2 : c2 ≠ '/' := by
        intro he
        rw [hc1, he] at hoc
        simp at hoc
      subst hc1
      rcases attributes_space attrs with ha | ⟨l, ha⟩ <;>
        cases rest2 with
        | nil => simp [List.dropLast, ha]
        | cons c3 rest3 => simp [List.dropLast, ha, hc2]

theorem count_filter_singleton (x s : String) :
    List.count s (List.filter isEndTag [x]) = etCount1 x s := by
  unfold etCount1
  by_cases he : isEndTag x = true
  · by_cases hes : x = s
    · subst hes
      simp [List.filter_singleton, he]
    · simp [List.filter_singleton, he, hes, Ne.symm hes]
  · simp [List.filter_singleton, he]

theorem etp_count_eq (n : String) (p : List Frag) (t : List (String × Builder))
    (e : String) (st : List String) (s : String) :
    (endTagPieces (.mk n p t e st)).count s = etCountP p s + etCount1 e s + etCountL st s := by
  unfold endTagPieces strPieces etCountP etCountL
  simp only [Builder.pieces, Builder.endtag, Builder.stack, List.filter_append,
    List.count_append]
  have h1 := count_filter_singleton e s
  have h2 : List.count s (List.filter isEndTag st.reverse)
      = List.count s (List.filter isEndTag st) := by
    rw [List.filter_reverse, List.count_reverse]
  omega

theorem etCountP_append_str (p : List Frag) (x s : String) :
    etCountP (p ++ [.str x]) s = etCountP p s + etCount1 x s := by
  unfold etCountP
  simp only [List.filterMap_append, List.filter_append, List.count_append]
  have h1 : List.filterMap fragStrOpt [Frag.str x] = [x] := rfl
  rw [h1, count_filter_singleton]

theorem etCountL_append (st : List String) (x s : String) :
    etCountL (st ++ [x]) s = etCountL st s + etCount1 x s := by
  unfold etCountL
  simp only [List.filter_append, List.count_append]
  rw [count_filter_singleton]

theorem etCount1_empty (s : String) : etCount1 "" s = 0 := by
  unfold etCount1
  rw [if_neg]
  intro h
  exact absurd h.1 (by rw [isEndTag_empty]; simp)

theorem etCount1_not_end {x : String} (h : isEndTag x = false) (s : String) :
    etCount1 x s = 0 := by
  unfold etCount1
  rw [if_neg]
  intro hc
  rw [h] at hc
  exact absurd hc.1 (by simp)

theorem endtagClose_mk (n : String) (p : List Frag) (t : List (String × Builder))
    (e : String) (st : List String) :
    endtagClose (.mk n p t e st)
      = if e = "" then .mk n p t e st else .mk n (p ++ [.str e]) t "" st := rfl

theorem endtagClose_count (b : Builder) (s : String) :
    (endTagPieces (endtagClose b)).count s = (endTagPieces b).count s := by
  cases b with
  | mk n p t e st =>
    rw [endtagClose_mk]
    by_cases he : e = ""
    · rw [if_pos he]
    · rw [if_neg he]
      rw [etp_count_eq, etp_count_eq, etCountP_append_str, etCount1_empty]
      omega

theorem noTpl_endtagClose {b : Builder} (h : noTpl b = true) :
    noTpl (endtagClose b) = true := by
  cases b with
  | mk n p t e st =>
    rw [endtagClose_mk]
    by_cases he : e = ""
    · rw [if_pos he]; exact h
    · rw [if_neg he]
      unfold noTpl at h ⊢
      simp only [Builder.pieces] at h ⊢
      rw [List.all_append, h]
      rfl

theorem noTpl_append_str {n : String} {p : List Frag} {t : List (String × Builder)}
    {e : String} {st : List String} (h : noTpl (.mk n p t e st) = true) (x : String)
    (e2 : String) (st2 : List String) :
    noTpl (.mk n (p ++ [.str x]) t e2 st2) = true := by
  unfold noTpl at h ⊢
  simp only [Builder.pieces] at h ⊢
  rw [List.all_append, h]
  rfl

theorem underscore_step :
    ∀ (cs : List Content) (b : Builder), cs.all structuralContent = true →
      noTpl b = true →
      noTpl (underscoreB b cs) = true ∧
      ∀ s, (endTagPieces (underscoreB b cs)).count s = (endTagPieces b).count s := by
  intro cs
  induction cs with
  | nil =>
    intro b _ hb
    exact ⟨hb, fun s => rfl⟩
  | cons c rest ih =>
    intro b hsc hb
    rw [List.all_cons, Bool.and_eq_true] at hsc
    obtain ⟨hc, hrest⟩ := hsc
    rw [show underscoreB b (c :: rest) = underscoreB (appendContent b c) rest from rfl]
    cases c with
    | cNone =>
      rw [show appendContent b .cNone = b from by cases b; rfl]
      exact ih b hrest hb
    | cText str =>
      cases b with
      | mk n p t e st =>
        rw [show appendContent (Builder.mk n p t e st) (.cText str)
            = Builder.mk n (p ++ [.str (escape str)]) t e st from rfl]
        have hnt2 := noTpl_append_str hb (escape str) e st
        obtain ⟨h1, h2⟩ := ih _ hrest hnt2
        refine ⟨h1, fun s => ?_⟩
        rw [h2 s, etp_count_eq, etp_count_eq, etCountP_append_str,
          etCount1_not_end (isEndTag_escape str)]
        omega
    | cHtml str => exact absurd hc (by simp [structuralContent])
    | cBuilder c2 => exact absurd hc (by simp [structuralContent])

/-- `openCheck` implies the piece is not an end tag. -/
theorem openCheck_not_endTag {tag : String} (h : openCheck tag = true) :
    isEndTag tag = false := by
  unfold isEndTag
  cases htd : tag.data with
  | nil => rfl
  | cons c1 rest =>
    cases rest with
    | nil => rfl
    | cons c2 rest2 =>
      by_cases hc1 : c1 = '<'
      · by_cases hc2 : c2 = '/'
        · exfalso
          unfold openCheck at h
          rw [htd, hc1, hc2] at h
          simp at h
        · simp [hc2]
      · simp [hc1]

theorem etCount1_end {x : String} (h : isEndTag x = true) (s : String) :
    etCount1 x s = List.count s [x] := by
  unfold etCount1
  by_cases hxs : x = s
  · subst hxs
    simp [h]
  · rw [if_neg (by intro hc; exact hxs hc.2)]
    simp [hxs, Ne.symm hxs]

theorem endtagClose_endtag (b : Builder) : (endtagClose b).endtag = "" := by
  cases b with
  | mk n p t e st =>
    rw [endtagClose_mk]
    by_cases he : e = ""
    · rw [if_pos he]
      exact he
    · rw [if_neg he]
      rfl

theorem noTpl_no_tpl_last {b : Builder} (h : noTpl b = true) (nm : String) :
    b.pieces.getLast? ≠ some (.tpl nm) := by
  intro hl
  have hmem : Frag.tpl nm ∈ b.pieces := by
    have h2 := List.dropLast_append_getLast? (l := b.pieces) (Frag.tpl nm)
      (by rw [Option.mem_def]; exact hl)
    rw [← h2]
    simp
  unfold noTpl at h
  rw [List.all_eq_true] at h
  have h3 := h _ hmem
  simp at h3

theorem isEndTag_script_full (a b c d : String) :
    isEndTag ("<script" ++ a ++ b ++ c ++ d) = false := by
  rw [str_append_assoc, str_append_assoc, str_append_assoc]
  exact isEndTag_script_piece _

theorem isEndTag_style_full (a b c d : String) :
    isEndTag ("<style" ++ a ++ b ++ c ++ d) = false := by
  rw [str_append_assoc, str_append_assoc, str_append_assoc]
  exact isEndTag_style_piece _

theorem enterB_mk (n : String) (p : List Frag) (t : List (String × Builder))
    (e : String) (st : List String) :
    enterB (.mk n p t e st)
      = if e = "" then .error "With statement may only be used with non-void elements."
        else .ok (.mk n p t "" (st ++ [e])) := rfl

theorem exitB_eq {b : Builder} {n : String} {p : List Frag}
    {t : List (String × Builder)} {e : String} {st : List String}
    (hbc : endtagClose b = .mk n p t e st) :
    exitB b = (match st.getLast? with
      | none => .error "IndexError: pop from empty list"
      | some top => .ok (.mk n (p ++ [.str top]) t e st.dropLast)) := by
  unfold exitB
  rw [hbc]

theorem commentB_mk (n : String) (p : List Frag) (t : List (String × Builder))
    (e : String) (st : List String) (txt : String) :
    commentB (.mk n p t e st) txt
      = .mk n (p ++ [.str ("<!--"
          ++ (⟨replaceCore "-->".data "‒‒>".data txt.data⟩ : String) ++ "-->")]) t e st := rfl

theorem scriptB_eq {b : Builder} {n : String} {p : List Frag}
    {t : List (String × Builder)} {e : String} {st : List String}
    (hbc : endtagClose b = .mk n p t e st) (code : String)
    (as : List (String × AttrValue)) :
    scriptB b code as
      = .mk n (p ++ [.str ("<script" ++ attributes as ++ ">"
          ++ (⟨escSpecialCore "script>".data code.data⟩ : String) ++ "</script>")]) t e st := by
  unfold scriptB
  rw [hbc]

theorem styleB_eq {b : Builder} {n : String} {p : List Frag}
    {t : List (String × Builder)} {e : String} {st : List String}
    (hbc : endtagClose b = .mk n p t e st) (code : String)
    (as : List (String × AttrValue)) :
    styleB b code as
      = .mk n (p ++ [.str ("<style" ++ attributes as ++ ">"
          ++ (⟨escSpecialCore "style>".data code.data⟩ : String) ++ "</style>")]) t e st := by
  unfold styleB
  rw [hbc]

/-- The end-tag accounting of a single structural Builder operation: no
template pieces appear, and the multiset of end-tag pieces grows by exactly
the end tags the operation owes. -/
theorem c2_step {op : Op} {b0 b1 : Builder}
    (hso : structuralOp op = true) (hnt : noTpl b0 = true)
    (h : exec op b0 = .ok b1) :
    noTpl b1 = true ∧
    ∀ s, (endTagPieces b1).count s
      = (endTagPieces b0).count s + (opensOfOp op).count s := by
  cases op with
  | tplInsert nm => exact absurd hso (by simp [structuralOp])
  | tplAssign nm v => exact absurd hso (by simp [structuralOp])
  | tag nm =>
    have hident : nm.data.all isWordChar = true := by simpa [structuralOp] using hso
    simp only [exec, Except.ok.injEq] at h
    cases hbc : endtagClose b0 with
    | mk n p t e st =>
      have he : e = "" := by
        have := endtagClose_endtag b0
        rw [hbc] at this
        exact this
      have hop : openTag b0 nm = (if omitEndtag.contains (mangle nm)
          then Builder.mk n (p ++ [.str ("<" ++ mangle nm ++ ">")]) t e st
          else Builder.mk n (p ++ [.str ("<" ++ mangle nm ++ ">")]) t
            ("</" ++ mangle nm ++ ">") st) := by
        unfold openTag
        rw [hbc]
      have hnt2 : noTpl (Builder.mk n p t e st) = true := by
        rw [← hbc]
        exact noTpl_endtagClose hnt
      have hcnt : ∀ s, etCountP p s + etCount1 e s + etCountL st s
          = (endTagPieces b0).count s := by
        intro s
        rw [← etp_count_eq n p t e st s, ← hbc]
        exact endtagClose_count b0 s
      rw [hop] at h
      by_cases hom : omitEndtag.contains (mangle nm)
      · rw [if_pos hom] at h
        rw [← h]
        constructor
        · exact noTpl_append_str hnt2 _ _ _
        · intro s
          rw [etp_count_eq, etCountP_append_str,
            etCount1_not_end (isEndTag_open_tag hident)]
          simp only [opensOfOp, if_pos hom, List.count_nil]
          have := hcnt s
          omega
      · rw [if_neg hom] at h
        rw [← h]
        constructor
        · exact noTpl_append_str hnt2 _ _ _
        · intro s
          rw [etp_count_eq, etCountP_append_str,
            etCount1_not_end (isEndTag_open_tag hident),
            etCount1_end (isEndTag_append_close (mangle nm)) s]
          simp only [opensOfOp, if_neg hom]
          have h5 := hcnt s
          have h6 : etCount1 e s = 0 := by
            rw [he]
            exact etCount1_empty s
          omega
  | enterScope =>
    cases b0 with
    | mk n p t e st =>
      simp only [exec] at h
      rw [enterB_mk] at h
      by_cases he : e = ""
      · rw [if_pos he] at h
        exact absurd h (by simp)
      · rw [if_neg he] at h
        simp only [Except.ok.injEq] at h
        rw [← h]
        refine ⟨hnt, fun s => ?_⟩
        rw [etp_count_eq, etp_count_eq, etCountL_append, etCount1_empty]
        simp only [opensOfOp, List.count_nil]
        omega
  | exitScope =>
    simp only [exec] at h
    cases hbc : endtagClose b0 with
    | mk n p t e st =>
      rw [exitB_eq hbc] at h
      have hnt2 : noTpl (Builder.mk n p t e st) = true := by
        rw [← hbc]
        exact noTpl_endtagClose hnt
      have hcnt : ∀ s, etCountP p s + etCount1 e s + etCountL st s
          = (endTagPieces b0).count s := by
        intro s
        rw [← etp_count_eq n p t e st s, ← hbc]
        exact endtagClose_count b0 s
      cases hgl : st.getLast? with
      | none =>
        rw [hgl] at h
        exact absurd h (by simp)
      | some top =>
        rw [hgl] at h
        simp only [Except.ok.injEq] at h
        rw [← h]
        refine ⟨noTpl_append_str hnt2 _ _ _, fun s => ?_⟩
        have hst : st.dropLast ++ [top] = st :=
          List.dropLast_append_getLast? top (by rw [Option.mem_def]; exact hgl)
        rw [etp_count_eq, etCountP_append_str]
        simp only [opensOfOp, List.count_nil]
        have h2 := hcnt s
        rw [← hst, etCountL_append] at h2
        omega
  | comment txt =>
    cases b0 with
    | mk n p t e st =>
      simp only [exec, Except.ok.injEq] at h
      rw [commentB_mk] at h
      rw [← h]
      refine ⟨noTpl_append_str hnt _ _ _, fun s => ?_⟩
      rw [etp_count_eq, etp_count_eq, etCountP_append_str,
        etCount1_not_end (isEndTag_comment _)]
      simp only [opensOfOp, List.count_nil]
      omega
  | script code as =>
    simp only [exec, Except.ok.injEq] at h
    cases hbc : endtagClose b0 with
    | mk n p t e st =>
      rw [scriptB_eq hbc] at h
      have hnt2 : noTpl (Builder.mk n p t e st) = true := by
        rw [← hbc]
        exact noTpl_endtagClose hnt
      have hcnt : ∀ s, etCountP p s + etCount1 e s + etCountL st s
          = (endTagPieces b0).count s := by
        intro s
        rw [← etp_count_eq n p t e st s, ← hbc]
        exact endtagClose_count b0 s
      rw [← h]
      refine ⟨noTpl_append_str hnt2 _ _ _, fun s => ?_⟩
      rw [etp_count_eq, etCountP_append_str,
        etCount1_not_end (isEndTag_script_full _ _ _ _)]
      simp only [opensOfOp, List.count_nil]
      have := hcnt s
      omega
  | style code as =>
    simp only [exec, Except.ok.injEq] at h
    cases hbc : endtagClose b0 with
    | mk n p t e st =>
      rw [styleB_eq hbc] at h
      have hnt2 : noTpl (Builder.mk n p t e st) = true := by
        rw [← hbc]
        exact noTpl_endtagClose hnt
      have hcnt : ∀ s, etCountP p s + etCount1 e s + etCountL st s
          = (endTagPieces b0).count s := by
        intro s
        rw [← etp_count_eq n p t e st s, ← hbc]
        exact endtagClose_count b0 s
      rw [← h]
      refine ⟨noTpl_append_str hnt2 _ _ _, fun s => ?_⟩
      rw [etp_count_eq, etCountP_append_str,
        etCount1_not_end (isEndTag_style_full _ _ _ _)]
      simp only [opensOfOp, List.count_nil]
      have := hcnt s
      omega
  | usc cs =>
    have hsc : cs.all structuralContent = true := by simpa [structuralOp] using hso
    simp only [exec, Except.ok.injEq] at h
    rw [← h]
    obtain ⟨h1, h2⟩ := underscore_step cs b0 hsc hnt
    refine ⟨h1, fun s => ?_⟩
    rw [h2 s]
    simp [opensOfOp]
  | call cs as =>
    have hsc : cs.all structuralContent = true := by simpa [structuralOp] using hso
    simp only [exec] at h
    cases hgl : b0.pieces.getLast? with
    | none =>
      rw [callB_last_none hgl] at h
      by_cases ha : as = []
      · rw [if_neg (by simp [ha])] at h
        by_cases hce : cs.isEmpty
        · rw [if_pos hce] at h
          simp only [Except.ok.injEq] at h
          rw [← h]
          exact ⟨hnt, fun s => by simp [opensOfOp]⟩
        · rw [if_neg hce] at h
          simp only [Except.ok.injEq] at h
          rw [← h]
          obtain ⟨h1, h2⟩ := underscore_step cs b0 hsc hnt
          refine ⟨noTpl_endtagClose h1, fun s => ?_⟩
          rw [endtagClose_count, h2 s]
          simp [opensOfOp]
      · rw [if_pos (by simp [ha])] at h
        exact absurd h (by simp)
    | some f =>
      cases f with
      | tpl nm => exact absurd hgl (noTpl_no_tpl_last hnt nm)
      | str tag =>
        rw [callB_last_str hgl] at h
        by_cases ha : as = []
        · rw [if_pos ha] at h
          simp only at h
          by_cases hce : cs.isEmpty
          · rw [if_pos hce] at h
            simp only [Except.ok.injEq] at h
            rw [← h]
            exact ⟨hnt, fun s => by simp [opensOfOp]⟩
          · rw [if_neg hce] at h
            simp only [Except.ok.injEq] at h
            rw [← h]
            obtain ⟨h1, h2⟩ := underscore_step cs b0 hsc hnt
            refine ⟨noTpl_endtagClose h1, fun s => ?_⟩
            rw [endtagClose_count, h2 s]
            simp [opensOfOp]
        · rw [if_neg ha] at h
          by_cases hoc : openCheck tag
          · rw [if_pos hoc] at h
            simp only at h
            -- the merged builder
            cases hb0 : b0 with
            | mk n p t e st =>
              rw [hb0] at hgl hnt h
              have hb2 : (Builder.mk n p t e st).setPieces
                  ((Builder.mk n p t e st).pieces.dropLast ++ [.str (mergeTag tag as)])
                  = Builder.mk n (p.dropLast ++ [.str (mergeTag tag as)]) t e st := rfl
              rw [hb2] at h
              have hp : p.dropLast ++ [Frag.str tag] = p :=
                List.dropLast_append_getLast? (Frag.str tag)
                  (by rw [Option.mem_def]; exact hgl)
              have hnt2 : noTpl (Builder.mk n (p.dropLast ++ [.str (mergeTag tag as)]) t e st)
                  = true := by
                unfold noTpl at hnt ⊢
                simp only [Builder.pieces] at hnt ⊢
                rw [List.all_append]
                have hdl : p.dropLast.all
                    (fun f => match f with | .str _ => true | .tpl _ => false) = true := by
                  rw [List.all_eq_true] at hnt ⊢
                  intro f hf
                  exact hnt f (List.dropLast_subset _ hf)
                rw [hdl]
                rfl
              have hcnt2 : ∀ s,
                  (endTagPieces (Builder.mk n (p.dropLast ++ [.str (mergeTag tag as)]) t e st)).count s
                  = (endTagPieces (Builder.mk n p t e st)).count s := by
                intro s
                rw [etp_count_eq, etp_count_eq, etCountP_append_str,
                  etCount1_not_end (isEndTag_mergeTag hoc as)]
                conv_rhs => rw [← hp]
                rw [etCountP_append_str, etCount1_not_end (openCheck_not_endTag hoc)]
              by_cases hce : cs.isEmpty
              · rw [if_pos hce] at h
                simp only [Except.ok.injEq] at h
                rw [← h]
                exact ⟨hnt2, fun s => by rw [hcnt2 s]; simp [opensOfOp]⟩
              · rw [if_neg hce] at h
                simp only [Except.ok.injEq] at h
                rw [← h]
                obtain ⟨h1, h2⟩ := underscore_step cs _ hsc hnt2
                refine ⟨noTpl_endtagClose h1, fun s => ?_⟩
                rw [endtagClose_count, h2 s, hcnt2 s]
                simp [opensOfOp]
          · rw [if_neg hoc] at h
            simp only at h
            exact absurd h (by simp)

theorem c2_run :
    ∀ (ops : List Op) (b0 b : Builder), ops.all structuralOp = true →
      noTpl b0 = true → execs ops b0 = .ok b →
      noTpl b = true ∧
      ∀ s, (endTagPieces b).count s
        = (endTagPieces b0).count s + (opensList ops).count s := by
  intro ops
  induction ops with
  | nil =>
    intro b0 b _ hnt h
    simp only [execs, Except.ok.injEq] at h
    rw [← h]
    exact ⟨hnt, fun s => by simp [opensList]⟩
  | cons op rest ih =>
    intro b0 b hall hnt h
    rw [List.all_cons, Bool.and_eq_true] at hall
    obtain ⟨hop, hrest⟩ := hall
    rw [show execs (op :: rest) b0
        = (match exec op b0 with
           | .ok b2 => execs rest b2
           | .error e => .error e) from rfl] at h
    cases hx : exec op b0 with
    | error e =>
      rw [hx] at h
      exact absurd h (by simp)
    | ok b2 =>
      rw [hx] at h
      obtain ⟨h1, h2⟩ := c2_step hop hnt hx
      obtain ⟨h3, h4⟩ := ih b2 b hrest h1 h
      refine ⟨h3, fun s => ?_⟩
      rw [h4 s, h2 s]
      rw [show opensList (op :: rest) = opensOfOp op ++ opensList rest from rfl,
        List.count_append]
      omega

/-- The rendering decomposes as: all pieces, then the pending end tag, then
the stacked end tags in reverse order of pushing (innermost scope first). -/
theorem renderB_structure (b : Builder) :
    renderB b
      = joinAll (b.pieces.map (fragRender b)) ++ b.endtag ++ joinAll b.stack.reverse := by
  rw [renderB_unfold]
  unfold allpieces
  rw [List.map_append, List.map_append, joinAll_append, joinAll_append]
  have h1 : joinAll (List.map (fragRender b) [Frag.str b.endtag]) = b.endtag := by
    show b.endtag ++ "" = b.endtag
    exact str_append_nil _
  have h2 : List.map (fragRender b) (b.stack.reverse.map Frag.str) = b.stack.reverse := by
    rw [List.map_map]
    have h3 : ∀ (l : List String), List.map (fragRender b ∘ Frag.str) l = l := by
      intro l
      induction l with
      | nil => rfl
      | cons x xs ih => simp [fragRender, Function.comp, ih]
    exact h3 _
  rw [h1, h2]

/-- C2 (amended): the Builder's rendering concatenates, in order, every
accumulated piece, then the still-pending end tag, then the stacked unclosed
end tags in reverse order of pushing (innermost scope first); every end tag
of a non-omit-set element that was opened appears exactly once among the
output pieces — but end tags of elements already closed during construction
appear at their closing positions, which follow the order of closing, not
the reverse order of opening. -/
theorem c2_render_balance (ops : List Op) (b : Builder)
    (hs : ops.all structuralOp = true)
    (h : execs ops (emptyB "E Builder") = .ok b) :
    noTpl b = true
  ∧ renderB b
      = joinAll (b.pieces.map (fragRender b)) ++ b.endtag ++ joinAll b.stack.reverse
  ∧ ∀ s : String, (endTagPieces b).count s = (opensList ops).count s := by
  obtain ⟨h1, h2⟩ := c2_run ops (emptyB "E Builder") b hs rfl h
  refine ⟨h1, renderB_structure b, fun s => ?_⟩
  rw [h2 s]
  rw [show endTagPieces (emptyB "E Builder") = [] from rfl]
  simp

/-- C2 counterexample: opening div then span emits `</div>` before
`</span>` — the end tags of elements closed during construction stand in
opening order, not the claimed reverse order of opening. -/
theorem c2_counterexample :
    execs c2cexOps (emptyB "E Builder") = .ok c2cexB
  ∧ renderB c2cexB = "<div></div><span></span>"
  ∧ endTagPieces c2cexB = ["</div>", "</span>"]
  ∧ opensList c2cexOps = ["</div>", "</span>"]
  ∧ endTagPieces c2cexB ≠ (opensList c2cexOps).reverse :=
  ⟨rfl, rfl, rfl, rfl, by decide⟩

/-- C2 witness: a concrete structural operation sequence. -/
theorem c2_witness :
    (c2wOps.all structuralOp = true ∧ execs c2wOps (emptyB "E Builder") = .ok c2wB)
  ∧ (noTpl c2wB = true
     ∧ renderB c2wB
         = joinAll (c2wB.pieces.map (fragRender c2wB)) ++ c2wB.endtag
           ++ joinAll c2wB.stack.reverse
     ∧ ∀ s : String, (endTagPieces c2wB).count s = (opensList c2wOps).count s) :=
  ⟨⟨by decide, rfl⟩, c2_render_balance c2wOps c2wB (by decide) rfl⟩

/-! ## Claim C1: content-model enforcement -/

theorem addChildN_kindOf (g f : HTMLNode) : (addChildN g f).kindOf = g.kindOf := by
  cases g; rfl

theorem addChildN_nameOf (g f : HTMLNode) : (addChildN g f).nameOf = g.nameOf := by
  cases g; rfl

theorem addContentN_kindOf (f : HTMLNode) (txt : String) :
    (addContentN f txt).kindOf = f.kindOf := by
  cases f; rfl

theorem addContentN_nameOf (f : HTMLNode) (txt : String) :
    (addContentN f txt).nameOf = f.nameOf := by
  cases f; rfl

theorem canContainN_addChild (g f : HTMLNode) (nm : Option String) :
    canContainN (addChildN g f) nm = canContainN g nm := by
  unfold canContainN
  rw [addChildN_kindOf, addChildN_nameOf]

theorem canContainN_addContent (f : HTMLNode) (txt : String) (nm : Option String) :
    canContainN (addContentN f txt) nm = canContainN f nm := by
  unfold canContainN
  rw [addContentN_kindOf, addContentN_nameOf]

theorem goodNode_mk (k : NodeKind) (n : Option String)
    (a : List (Option String × Option String)) (c : String)
    (ch : List HTMLNode) (e : Bool) :
    goodNode (.mk k n a c ch e) = goodChildren k n ch := by
  unfold goodNode
  rfl

theorem goodNode_addContent (f : HTMLNode) (txt : String) :
    goodNode (addContentN f txt) = goodNode f := by
  cases f with
  | mk k n a c ch e =>
    show goodNode (.mk k n a (c ++ txt) ch e) = _
    rw [goodNode_mk, goodNode_mk]

theorem goodChildren_append (k : NodeKind) (n : Option String)
    (l1 l2 : List HTMLNode) :
    goodChildren k n (l1 ++ l2) = (goodChildren k n l1 && goodChildren k n l2) := by
  induction l1 with
  | nil =>
    show goodChildren k n l2 = (true && goodChildren k n l2)
    rw [Bool.true_and]
  | cons f rest ih =>
    show ((match f.kindOf with
      | .element => canContainKN k n f.nameOf
      | _ => true) && goodNode f && goodChildren k n (rest ++ l2)) = _
    rw [ih]
    show _ = ((match f.kindOf with
      | .element => canContainKN k n f.nameOf
      | _ => true) && goodNode f && goodChildren k n rest && goodChildren k n l2)
    rw [Bool.and_assoc, Bool.and_assoc, Bool.and_assoc]

theorem goodNode_addChild {g f : HTMLNode} (hg : goodNode g = true)
    (hf : goodNode f = true)
    (hcond : f.kindOf = .element → canContainN g f.nameOf = true) :
    goodNode (addChildN g f) = true := by
  cases g with
  | mk k n a c ch e =>
    show goodNode (.mk k n a c (ch ++ [f]) e) = true
    rw [goodNode_mk, goodChildren_append]
    rw [goodNode_mk] at hg
    rw [hg, Bool.true_and]
    show ((match f.kindOf with
      | .element => canContainKN k n f.nameOf
      | _ => true) && goodNode f && goodChildren k n []) = true
    have hlast : goodChildren k n [] = true := rfl
    cases hk : f.kindOf with
    | element =>
      have hcc : canContainKN k n f.nameOf = true := hcond hk
      simp [hcc, hf, hlast]
    | root => simp [hf, hlast]
    | doctype => simp [hf, hlast]
    | commentK => simp [hf, hlast]

theorem goodNode_newElement (nm : Option String)
    (attrs : List (Option String × Option String)) :
    goodNode (newElementNode nm attrs) = true := by
  unfold newElementNode
  rw [goodNode_mk]
  rfl

theorem goodNode_doctype : goodNode doctypeNode = true := by
  rw [show doctypeNode = .mk .doctype (some DOCTYPE_KEY) [] "" [] false from rfl,
    goodNode_mk]
  rfl

theorem goodNode_comment (txt : String) : goodNode (commentNode txt) = true := by
  rw [show commentNode txt = .mk .commentK (some COMMENT_KEY) [] txt [] false from rfl,
    goodNode_mk]
  rfl

theorem closeBottom_good {top : HTMLNode} {rr : Option HTMLNode}
    (hg : goodNode top = true) (hrr : ∀ r, rr = some r → goodNode r = true) :
    ∀ r, closeBottom top rr = some r → goodNode r = true := by
  intro r hr
  unfold closeBottom at hr
  cases hk : top.kindOf with
  | root =>
    rw [hk] at hr
    simp only [Option.some.injEq] at hr
    rw [← hr]
    exact hg
  | doctype => rw [hk] at hr; exact hrr r hr
  | commentK => rw [hk] at hr; exact hrr r hr
  | element => rw [hk] at hr; exact hrr r hr

theorem attachText_inv (txt : String) :
    ∀ (l : List HTMLNode),
      chainOK (attachText txt l) = chainOK l
    ∧ (allGood l = true → allGood (attachText txt l) = true)
    ∧ headShape (attachText txt l) = headShape l := by
  intro l
  induction l with
  | nil => exact ⟨rfl, fun h => h, rfl⟩
  | cons f rest ih =>
    obtain ⟨ih1, ih2, ih3⟩ := ih
    have hata : attachText txt (f :: rest)
        = if isAllowedTextN f = true then addContentN f txt :: rest
          else f :: attachText txt rest := rfl
    by_cases hall : isAllowedTextN f
    · rw [show attachText txt (f :: rest) = addContentN f txt :: rest from by
        rw [hata, if_pos hall]]
      refine ⟨?_, ?_, ?_⟩
      · cases rest with
        | nil => rfl
        | cons g r =>
          show (canContainN g (addContentN f txt).nameOf && chainOK (g :: r))
            = (canContainN g f.nameOf && chainOK (g :: r))
          rw [addContentN_nameOf]
      · intro hag
        rw [show allGood (f :: rest) = (goodNode f && allGood rest) from rfl,
          Bool.and_eq_true] at hag
        show (goodNode (addContentN f txt) && allGood rest) = true
        rw [goodNode_addContent, hag.1, hag.2]
        rfl
      · show some ((addContentN f txt).kindOf, (addContentN f txt).nameOf)
          = some (f.kindOf, f.nameOf)
        rw [addContentN_kindOf, addContentN_nameOf]
    · rw [show attachText txt (f :: rest) = f :: attachText txt rest from by
        rw [hata, if_neg hall]]
      refine ⟨?_, ?_, rfl⟩
      · cases rest with
        | nil => rfl
        | cons g r =>
          cases hat : attachText txt (g :: r) with
          | nil =>
            rw [hat] at ih3
            exact absurd ih3 (by simp [headShape])
          | cons g2 r2 =>
            rw [hat] at ih1 ih3
            show (canContainN g2 f.nameOf && chainOK (g2 :: r2))
              = (canContainN g f.nameOf && chainOK (g :: r))
            simp only [headShape, List.head?_cons, Option.map_some', Option.some.injEq,
              Prod.mk.injEq] at ih3
            have hck : canContainN g2 f.nameOf = canContainN g f.nameOf := by
              unfold canContainN
              rw [ih3.1, ih3.2]
            rw [hck, ih1]
      · intro hag
        rw [show allGood (f :: rest) = (goodNode f && allGood rest) from rfl,
          Bool.and_eq_true] at hag
        show (goodNode f && allGood (attachText txt rest)) = true
        rw [hag.1, ih2 hag.2]
        rfl

theorem cascadeGo_inv (nm : Option String) :
    ∀ (rest : List HTMLNode) (top : HTMLNode) (rr : Option HTMLNode),
      goodNode top = true → chainOK (top :: rest) = true → allGood rest = true →
      (∀ r, rr = some r → goodNode r = true) →
      InvP (cascadeGo nm top rest rr) ∧
      (∀ f l, (cascadeGo nm top rest rr).stack = f :: l → canContainN f nm = true) := by
  intro rest
  induction rest with
  | nil =>
    intro top rr hg hch hag hrr
    unfold cascadeGo
    by_cases hcc : canContainN top nm
    · rw [if_pos hcc]
      refine ⟨⟨rfl, ?_, hrr⟩, ?_⟩
      · show (goodNode top && allGood []) = true
        rw [hg]
        rfl
      · intro f l hfl
        simp only at hfl
        injection hfl with hf hl
        rw [← hf]
        exact hcc
    · rw [if_neg hcc]
      refine ⟨⟨rfl, rfl, closeBottom_good hg hrr⟩, ?_⟩
      intro f l hfl
      simp at hfl
  | cons g grest ih =>
    intro top rr hg hch hag hrr
    unfold cascadeGo
    by_cases hcc : canContainN top nm
    · rw [if_pos hcc]
      refine ⟨⟨hch, ?_, hrr⟩, ?_⟩
      · show (goodNode top && allGood (g :: grest)) = true
        rw [hg, hag]
        rfl
      · intro f l hfl
        simp only at hfl
        injection hfl with hf hl
        rw [← hf]
        exact hcc
    · rw [if_neg hcc]
      rw [show chainOK (top :: g :: grest)
          = (canContainN g top.nameOf && chainOK (g :: grest)) from rfl,
        Bool.and_eq_true] at hch
      obtain ⟨hcg, hch2⟩ := hch
      rw [show allGood (g :: grest) = (goodNode g && allGood grest) from rfl,
        Bool.and_eq_true] at hag
      obtain ⟨hgg, hag2⟩ := hag
      have hg2 : goodNode (addChildN g top) = true :=
        goodNode_addChild hgg hg (fun _ => hcg)
      have hch3 : chainOK (addChildN g top :: grest) = true := by
        cases grest with
        | nil => rfl
        | cons h2 hrest =>
          show (canContainN h2 (addChildN g top).nameOf && chainOK (h2 :: hrest)) = true
          rw [addChildN_nameOf]
          exact hch2
      exact ih (addChildN g top) rr hg2 hch3 hag2 hrr

theorem cbnGo_inv (nm : Option String) :
    ∀ (rest : List HTMLNode) (top : HTMLNode) (rr : Option HTMLNode),
      goodNode top = true → chainOK (top :: rest) = true → allGood rest = true →
      (∀ r, rr = some r → goodNode r = true) →
      InvP (cbnGo nm top rest rr) := by
  intro rest
  induction rest with
  | nil =>
    intro top rr hg hch hag hrr
    unfold cbnGo
    exact ⟨rfl, rfl, closeBottom_good hg hrr⟩
  | cons g grest ih =>
    intro top rr hg hch hag hrr
    unfold cbnGo
    rw [show chainOK (top :: g :: grest)
        = (canContainN g top.nameOf && chainOK (g :: grest)) from rfl,
      Bool.and_eq_true] at hch
    obtain ⟨hcg, hch2⟩ := hch
    rw [show allGood (g :: grest) = (goodNode g && allGood grest) from rfl,
      Bool.and_eq_true] at hag
    obtain ⟨hgg, hag2⟩ := hag
    have hg2 : goodNode (addChildN g top) = true :=
      goodNode_addChild hgg hg (fun _ => hcg)
    have hch3 : chainOK (addChildN g top :: grest) = true := by
      cases grest with
      | nil => rfl
      | cons h2 hrest =>
        show (canContainN h2 (addChildN g top).nameOf && chainOK (h2 :: hrest)) = true
        rw [addChildN_nameOf]
        exact hch2
    by_cases hnm : top.nameOf = nm
    · rw [if_pos hnm]
      refine ⟨hch3, ?_, hrr⟩
      show (goodNode (addChildN g top) && allGood grest) = true
      rw [hg2, hag2]
      rfl
    · rw [if_neg hnm]
      exact ih (addChildN g top) rr hg2 hch3 hag2 hrr

theorem collapseGo_good :
    ∀ (rest : List HTMLNode) (top : HTMLNode) (rr : Option HTMLNode),
      goodNode top = true → chainOK (top :: rest) = true → allGood rest = true →
      (∀ r, rr = some r → goodNode r = true) →
      ∀ r, collapseGo top rest rr = some r → goodNode r = true := by
  intro rest
  induction rest with
  | nil =>
    intro top rr hg hch hag hrr
    unfold collapseGo
    exact closeBottom_good hg hrr
  | cons g grest ih =>
    intro top rr hg hch hag hrr
    unfold collapseGo
    rw [show chainOK (top :: g :: grest)
        = (canContainN g top.nameOf && chainOK (g :: grest)) from rfl,
      Bool.and_eq_true] at hch
    obtain ⟨hcg, hch2⟩ := hch
    rw [show allGood (g :: grest) = (goodNode g && allGood grest) from rfl,
      Bool.and_eq_true] at hag
    obtain ⟨hgg, hag2⟩ := hag
    have hg2 : goodNode (addChildN g top) = true :=
      goodNode_addChild hgg hg (fun _ => hcg)
    have hch3 : chainOK (addChildN g top :: grest) = true := by
      cases grest with
      | nil => rfl
      | cons h2 hrest =>
        show (canContainN h2 (addChildN g top).nameOf && chainOK (h2 :: hrest)) = true
        rw [addChildN_nameOf]
        exact hch2
    exact ih (addChildN g top) rr hg2 hch3 hag2 hrr

theorem handleText_inv (txt : String) {st : PState} (h : InvP st) :
    InvP (handleText txt st) := by
  obtain ⟨h1, h2, h3⟩ := h
  obtain ⟨ha1, ha2, _⟩ := attachText_inv txt st.stack
  refine ⟨?_, ?_, ?_⟩
  · show chainOK (attachText txt st.stack) = true
    rw [ha1]
    exact h1
  · exact ha2 h2
  · exact h3

theorem handleComment_inv (txt : String) {st : PState} (h : InvP st) :
    InvP (handleComment txt st) := by
  obtain ⟨h1, h2, h3⟩ := h
  unfold handleComment
  cases hs : st.stack with
  | nil => exact ⟨h1, h2, h3⟩
  | cons f rest =>
    rw [hs] at h1 h2
    rw [show allGood (f :: rest) = (goodNode f && allGood rest) from rfl,
      Bool.and_eq_true] at h2
    have hg2 : goodNode (addChildN f (commentNode txt)) = true := by
      apply goodNode_addChild h2.1 (goodNode_comment txt)
      intro hk
      exact absurd hk (by
        rw [show (commentNode txt).kindOf = NodeKind.commentK from rfl]
        simp)
    refine ⟨?_, ?_, h3⟩
    · show chainOK (addChildN f (commentNode txt) :: rest) = true
      cases rest with
      | nil => rfl
      | cons g r =>
        show (canContainN g (addChildN f (commentNode txt)).nameOf
          && chainOK (g :: r)) = true
        rw [addChildN_nameOf]
        exact h1
    · show (goodNode (addChildN f (commentNode txt)) && allGood rest) = true
      rw [hg2, h2.2]
      rfl

theorem handleDoctype_inv {st st2 : PState} (h : InvP st)
    (hd : handleDoctype st = .ok st2) : InvP st2 := by
  obtain ⟨h1, h2, h3⟩ := h
  unfold handleDoctype at hd
  by_cases hl : 1 < st.stack.length
  · rw [if_pos hl] at hd
    exact absurd hd (by simp)
  · rw [if_neg hl] at hd
    cases hs : st.stack with
    | nil => rw [hs] at hd; exact absurd hd (by simp)
    | cons f rest =>
      rw [hs] at hd h1 h2
      simp only [Except.ok.injEq] at hd
      rw [show allGood (f :: rest) = (goodNode f && allGood rest) from rfl,
        Bool.and_eq_true] at h2
      have hg2 : goodNode (addChildN f doctypeNode) = true := by
        apply goodNode_addChild h2.1 goodNode_doctype
        intro hk
        exact absurd hk (by
          rw [show doctypeNode.kindOf = NodeKind.doctype from rfl]
          simp)
      rw [← hd]
      refine ⟨?_, ?_, h3⟩
      · show chainOK (addChildN f doctypeNode :: rest) = true
        cases rest with
        | nil => rfl
        | cons g r =>
          show (canContainN g (addChildN f doctypeNode).nameOf && chainOK (g :: r)) = true
          rw [addChildN_nameOf]
          exact h1
      · show (goodNode (addChildN f doctypeNode) && allGood rest) = true
        rw [hg2, h2.2]
        rfl

theorem handleNewNode_inv (nm : Option String)
    (attrs : List (Option String × Option String)) {st : PState} (h : InvP st) :
    InvP (handleNewNode nm attrs st) := by
  obtain ⟨h1, h2, h3⟩ := h
  have hnn : handleNewNode nm attrs st
      = ⟨newElementNode nm attrs :: (newNodeCascade nm st).stack,
         (newNodeCascade nm st).rootResult⟩ := rfl
  rw [hnn]
  cases hs : st.stack with
  | nil =>
    have hcas : newNodeCascade nm st = st := by
      unfold newNodeCascade
      rw [hs]
    rw [hcas, hs]
    refine ⟨rfl, ?_, h3⟩
    show (goodNode (newElementNode nm attrs) && allGood []) = true
    rw [goodNode_newElement]
    rfl
  | cons f rest =>
    rw [hs] at h1 h2
    rw [show allGood (f :: rest) = (goodNode f && allGood rest) from rfl,
      Bool.and_eq_true] at h2
    have hcas : newNodeCascade nm st = cascadeGo nm f rest st.rootResult := by
      unfold newNodeCascade
      rw [hs]
    rw [hcas]
    obtain ⟨hinv, hperm⟩ := cascadeGo_inv nm rest f st.rootResult h2.1 h1 h2.2 h3
    obtain ⟨hi1, hi2, hi3⟩ := hinv
    refine ⟨?_, ?_, hi3⟩
    · cases hcs : (cascadeGo nm f rest st.rootResult).stack with
      | nil => rfl
      | cons f2 l2 =>
        show (canContainN f2 (newElementNode nm attrs).nameOf
          && chainOK (f2 :: l2)) = true
        rw [show (newElementNode nm attrs).nameOf = nm from rfl]
        rw [hperm f2 l2 hcs]
        rw [hcs] at hi1
        rw [hi1]
        rfl
    · show (goodNode (newElementNode nm attrs)
        && allGood (cascadeGo nm f rest st.rootResult).stack) = true
      rw [goodNode_newElement, hi2]
      rfl

theorem closeByName_inv (nm : Option String) {st : PState} (h : InvP st) :
    InvP (closeByName nm st) := by
  obtain ⟨h1, h2, h3⟩ := h
  unfold closeByName
  cases hs : st.stack with
  | nil => exact ⟨h1, h2, h3⟩
  | cons f rest =>
    rw [hs] at h1 h2
    rw [show allGood (f :: rest) = (goodNode f && allGood rest) from rfl,
      Bool.and_eq_true] at h2
    exact cbnGo_inv nm rest f st.rootResult h2.1 h1 h2.2 h3

theorem createStep_inv {st st2 : PState} (piece : String) (h : InvP st)
    (hc : createStep st piece = .ok st2) : InvP st2 := by
  unfold createStep at hc
  by_cases h1 : piece = DOCTYPE
  · rw [if_pos h1] at hc
    exact handleDoctype_inv h hc
  · rw [if_neg h1] at hc
    by_cases h2 : (parseTag piece).tagName = some COMMENT_KEY
    · rw [if_pos h2] at hc
      simp only [Except.ok.injEq] at hc
      rw [← hc]
      exact handleComment_inv _ h
    · rw [if_neg h2] at hc
      by_cases h3 : (parseTag piece).tagName = some TEXT_KEY
      · rw [if_pos h3] at hc
        simp only [Except.ok.injEq] at hc
        rw [← hc]
        exact handleText_inv _ h
      · rw [if_neg h3] at hc
        by_cases h4 : (parseTag piece).isClosing
        · rw [if_pos h4] at hc
          simp only [Except.ok.injEq] at hc
          rw [← hc]
          exact closeByName_inv _ h
        · rw [if_neg h4] at hc
          simp only [Except.ok.injEq] at hc
          rw [← hc]
          exact handleNewNode_inv _ _ h

theorem runPieces_inv :
    ∀ (ps : List String) (st st2 : PState), InvP st →
      runPieces st ps = .ok st2 → InvP st2 := by
  intro ps
  induction ps with
  | nil =>
    intro st st2 h hr
    simp only [runPieces, Except.ok.injEq] at hr
    rw [← hr]
    exact h
  | cons p rest ih =>
    intro st st2 h hr
    rw [show runPieces st (p :: rest)
        = (match createStep st p with
           | .ok stx => runPieces stx rest
           | .error e => .error e) from rfl] at hr
    cases hcs : createStep st p with
    | error e => rw [hcs] at hr; exact absurd hr (by simp)
    | ok stx =>
      rw [hcs] at hr
      exact ih stx st2 (createStep_inv p h hcs) hr

theorem finalize_cons {st : PState} {f : HTMLNode} {rest : List HTMLNode}
    (hs : st.stack = f :: rest) :
    finalize st = (match collapseGo f rest st.rootResult with
      | some r => .ok r
      | none => .error "lost root") := by
  unfold finalize
  rw [hs]

theorem finalize_good {st : PState} {nd : HTMLNode} (h : InvP st)
    (hf : finalize st = .ok nd) : goodNode nd = true := by
  obtain ⟨h1, h2, h3⟩ := h
  cases hs : st.stack with
  | nil =>
    unfold finalize at hf
    rw [hs] at hf
    exact absurd hf (by simp)
  | cons f rest =>
    rw [finalize_cons hs] at hf
    rw [hs] at h1 h2
    rw [show allGood (f :: rest) = (goodNode f && allGood rest) from rfl,
      Bool.and_eq_true] at h2
    cases hcg : collapseGo f rest st.rootResult with
    | none => rw [hcg] at hf; exact absurd hf (by simp)
    | some r =>
      rw [hcg] at hf
      simp only [Except.ok.injEq] at hf
      rw [← hf]
      exact collapseGo_good rest f st.rootResult h2.1 h1 h2.2 h3 r hcg

theorem initState_inv : InvP initState := by
  refine ⟨rfl, ?_, ?_⟩
  · show (goodNode rootNode && allGood []) = true
    rw [show goodNode rootNode = true from rfl]
    rfl
  · intro r hr
    simp [initState] at hr

/-- C1: reconstruction walks outward from the innermost open node, closing
nodes until one whose content-model entry permits the new tag is found (the
root permitting every tag), attaches the new node there and pushes it;
consequently a tree the reconstructor returns never contains an element
node whose direct element child is forbidden by its content-model entry. -/
theorem c1_content_model (ps : List String) (nd : HTMLNode)
    (h : createFromPieces ps = .ok nd) : goodNode nd = true := by
  unfold createFromPieces at h
  cases hr : runPieces initState ps with
  | error e => rw [hr] at h; exact absurd h (by simp)
  | ok st =>
    rw [hr] at h
    exact finalize_good (runPieces_inv ps initState st initState_inv hr) h

/-- C1 witness: a `p` opened directly under `ul` forces the `ul` closed and
attaches the `p` to the root; the result is content-model clean. -/
theorem c1_witness :
    createFromPieces ["<ul>", "<p>"] = .ok c1node ∧ goodNode c1node = true :=
  ⟨rfl, c1_content_model ["<ul>", "<p>"] c1node rfl⟩

/-- C4 witness: a slot inserted at two points, then assigned once. -/
theorem c4_witness :
    lookupTemplate bw4.templates "Slot" = some (emptyB "Slot")
  ∧ (tplAssignB bw4 "Slot" (.cText "new") = .ok (afterAssign bw4 "Slot" (emptyB "Slot") "new")
     ∧ (afterAssign bw4 "Slot" (emptyB "Slot") "new").pieces = bw4.pieces
     ∧ fragRender (afterAssign bw4 "Slot" (emptyB "Slot") "new") (.tpl "Slot") = escape "new"
     ∧ renderB (afterAssign bw4 "Slot" (emptyB "Slot") "new")
         = joinAll ((allpieces (afterAssign bw4 "Slot" (emptyB "Slot") "new")).map
             (fragRender (afterAssign bw4 "Slot" (emptyB "Slot") "new"))))
  ∧ renderB (afterAssign bw4 "Slot" (emptyB "Slot") "new") = "new|new" :=
  ⟨rfl, c4_slot_propagation bw4 "Slot" (emptyB "Slot") "new" rfl, rfl⟩

end Tagger
